import Mathlib

/-!
# Verification of the BHEESHMA runtime dependency behavior monitor

A shallow embedding, in Lean 4, of the core of the BHEESHMA Node.js
runtime-monitoring library, together with theorems settling the frozen
specification claims.  Each definition is a direct transcription of the
JavaScript source it is named after; JavaScript idioms are modelled as
follows:

* JavaScript values that may be `null`/`undefined` are `Option` values
  (`none` = absent).
* JavaScript strings are Lean `String`s (or `List Char` where character-level
  induction is needed).
* Falsiness of the empty string (`s || null`) is modelled explicitly.
* Thrown exceptions are `Except` errors.
* Timestamps (`new Date().toISOString()`) are ambient-clock values that no
  claim references, so they are omitted from the signal record.
-/

/-! ## JavaScript value helpers -/

/-- JavaScript `x || null` for a string-or-absent value: the empty string is
falsy, so it collapses to `null` (`none`). -/
def jsOrNull : Option String → Option String
  | some s => if s = "" then none else some s
  | none => none

/-- String interpolation of a possibly-`undefined` value (template literal
coercion: `undefined` prints as the string `undefined`). -/
def jsShow : Option String → String
  | some s => s
  | none => "undefined"

/-! ## Signal model (`src/signals/signalTypes.js`) -/

/-- The frozen `SignalType` enumeration object from `signalTypes.js`
(lines 18–24): exactly five members, each mapping to its own name.  Note the
source object has no `HTTP_REQUEST` or `HTTPS_REQUEST` member. -/
def signalTypeEntries : List (String × String) :=
  [("ENV_ACCESS", "ENV_ACCESS"),
   ("FS_READ", "FS_READ"),
   ("FS_WRITE", "FS_WRITE"),
   ("SHELL_EXEC", "SHELL_EXEC"),
   ("NET_CONNECT", "NET_CONNECT")]

/-- Property access `SignalType[k]`: a missing member (such as
`SignalType.HTTP_REQUEST`) is JavaScript `undefined`, modelled as `none`. -/
def signalTypeGet (k : String) : Option String :=
  (signalTypeEntries.find? (fun p => p.1 == k)).map (fun p => p.2)

/-- `Object.values(SignalType)`. -/
def signalTypeValues : List String := signalTypeEntries.map (fun p => p.2)

/-- The `suspicious` analysis subrecord computed by the HTTP hook
(`httpHook.js`, `analyzeSuspiciousness`). -/
structure Suspicious where
  isIpAddress : Bool
  suspiciousTld : Bool
  nonStandardPort : Bool
  pastebinLike : Bool
  indicators : List String
deriving Repr, DecidableEq

/-- Type-specific signal metadata: one record with the optional fields the
various hooks populate (a JavaScript object literal with a subset of these
keys). -/
structure Metadata where
  variable_ : Option String := none
  path : Option String := none
  operation : Option String := none
  command : Option String := none
  host : Option String := none
  port : Option Int := none
  protocol : Option String := none
  url : Option String := none
  method : Option String := none
  suspicious : Option Suspicious := none
deriving Repr, DecidableEq

/-- An immutable signal record (`createSignal`'s result shape).  `type` is the
string stored in the `type` field; `package`/`version`/`stackTrace` are
`null`-able. -/
structure Signal where
  type : String
  package : Option String
  version : Option String
  metadata : Metadata
  stackTrace : Option String
deriving Repr, DecidableEq

/-- `createSignal` from `signalTypes.js` (lines 42–59): validates the type
against `Object.values(SignalType)` (throwing `TypeError` otherwise — note
`includes(undefined)` is false, so passing the absent
`SignalType.HTTP_REQUEST` throws), then builds the frozen record with
`package: packageName || null` and so on. -/
def createSignal (ty : Option String) (metadata : Metadata)
    (packageName packageVersion stackTrace : Option String) :
    Except String Signal :=
  match ty with
  | some t =>
    if t ∈ signalTypeValues then
      .ok { type := t
            package := jsOrNull packageName
            version := jsOrNull packageVersion
            metadata := metadata
            stackTrace := jsOrNull stackTrace }
    else
      .error ("Invalid signal type: " ++ t)
  | none => .error ("Invalid signal type: " ++ jsShow none)

/-- `C3`: the claim says `SignalType` is a seven-member enumeration including
`HTTP_REQUEST` and `HTTPS_REQUEST`, with `createSignal` succeeding for all
seven.  In the source the enumeration has exactly five members,
`SignalType.HTTP_REQUEST` and `SignalType.HTTPS_REQUEST` are `undefined`, and
`createSignal` throws a `TypeError` for them (while succeeding on the five
actual members). -/
theorem createSignal_rejects_http_request_types :
    signalTypeGet "HTTP_REQUEST" = none ∧
    signalTypeGet "HTTPS_REQUEST" = none ∧
    signalTypeValues = ["ENV_ACCESS", "FS_READ", "FS_WRITE", "SHELL_EXEC",
      "NET_CONNECT"] ∧
    createSignal (signalTypeGet "HTTP_REQUEST") {} (some "left-pad")
      (some "1.0.0") none = .error "Invalid signal type: undefined" ∧
    createSignal (some "HTTP_REQUEST") {} (some "left-pad") (some "1.0.0")
      none = .error "Invalid signal type: HTTP_REQUEST" ∧
    (∀ t ∈ signalTypeValues, ∀ md pn pv st,
      (createSignal (some t) md pn pv st).isOk = true) := by
  refine ⟨rfl, rfl, rfl, rfl, rfl, ?_⟩
  intro t ht md pn pv st
  fin_cases ht <;> simp [createSignal, signalTypeValues, signalTypeEntries,
    Except.isOk, Except.toBool]

/-! ## Trust scoring (`src/scoring/trustScore.js`) -/

/-- The frozen `RISK_WEIGHTS` table (`trustScore.js`, lines 30–36), keyed by
the five `SignalType` members. -/
def riskWeightEntries : List (String × Int) :=
  [("SHELL_EXEC", 20), ("FS_WRITE", 10), ("NET_CONNECT", 8),
   ("ENV_ACCESS", 5), ("FS_READ", 3)]

/-- `RISK_WEIGHTS[signal.type] || 0`: the weight of a signal type, defaulting
to `0` for types outside the table. -/
def riskWeight (t : String) : Int :=
  match (riskWeightEntries.find? (fun p => p.1 == t)).map (fun p => p.2) with
  | some w => w
  | none => 0

/-- The deduction loop of `calculateTrustScore` (lines 60–71): subtract each
signal's weight, flooring at `0` and breaking out once the score drops below
zero. -/
def scoreLoop : Int → List Signal → Int
  | score, [] => score
  | score, s :: rest =>
    let score2 := score - riskWeight s.type
    if score2 < 0 then 0 else scoreLoop score2 rest

/-- `calculateTrustScore` (`trustScore.js`, lines 54–74): `100` for an empty
signal list, otherwise the deduction loop started at `100`. -/
def calculateTrustScore (signals : List Signal) : Int :=
  if signals.isEmpty then 100 else scoreLoop 100 signals

/-- `getRiskLevel` (`trustScore.js`, lines 161–166). -/
def getRiskLevel (score : Int) : String :=
  if score ≥ 80 then "LOW"
  else if score ≥ 60 then "MEDIUM"
  else if score ≥ 30 then "HIGH"
  else "CRITICAL"

theorem riskWeight_nonneg (t : String) : 0 ≤ riskWeight t := by
  rcases h : (riskWeightEntries.find? (fun p => p.1 == t)) with _ | p
  · simp [riskWeight, h]
  · have hp := List.mem_of_find?_eq_some h
    simp only [riskWeight, h, Option.map_some]
    fin_cases hp <;> norm_num

theorem scoreLoop_eq_max (l : List Signal) : ∀ score : Int, 0 ≤ score →
    scoreLoop score l =
      max 0 (score - (l.map (fun s => riskWeight s.type)).sum) := by
  induction l with
  | nil => intro score h; simp [scoreLoop]; omega
  | cons s rest ih =>
    intro score h
    have hw := riskWeight_nonneg s.type
    have hrest : 0 ≤ (rest.map (fun s => riskWeight s.type)).sum :=
      List.sum_nonneg (by
        intro x hx
        rcases List.mem_map.mp hx with ⟨y, _, hy⟩
        exact hy ▸ riskWeight_nonneg y.type)
    simp only [scoreLoop, List.map_cons, List.sum_cons]
    split
    · omega
    · rename_i hnneg
      rw [ih _ (by omega)]
      omega

/-- A bare `SHELL_EXEC` signal attributed to a test package. -/
def shellExecSignal : Signal :=
  { type := "SHELL_EXEC", package := some "evil-pkg", version := some "1.0.0",
    metadata := {}, stackTrace := none }

/-- A bare `FS_WRITE` signal attributed to a test package. -/
def fsWriteSignal : Signal :=
  { type := "FS_WRITE", package := some "evil-pkg", version := some "1.0.0",
    metadata := {}, stackTrace := none }

/-- `C8`: for every signal group the computed trust score equals
`max 0 (100 − Σ weights)` and hence lies in `[0, 100]`; in particular three
`SHELL_EXEC` signals (weight 20) and two `FS_WRITE` signals (weight 10) score
`20`, whose risk tier is `CRITICAL`. -/
theorem calculateTrustScore_correct :
    (∀ signals : List Signal,
      calculateTrustScore signals =
        max 0 (100 - (signals.map (fun s => riskWeight s.type)).sum) ∧
      0 ≤ calculateTrustScore signals ∧ calculateTrustScore signals ≤ 100) ∧
    calculateTrustScore [shellExecSignal, shellExecSignal, shellExecSignal,
      fsWriteSignal, fsWriteSignal] = 20 ∧
    getRiskLevel (calculateTrustScore [shellExecSignal, shellExecSignal,
      shellExecSignal, fsWriteSignal, fsWriteSignal]) = "CRITICAL" := by
  have key : ∀ signals : List Signal,
      calculateTrustScore signals =
        max 0 (100 - (signals.map (fun s => riskWeight s.type)).sum) := by
    intro signals
    cases signals with
    | nil => simp [calculateTrustScore]
    | cons s rest =>
      simp only [calculateTrustScore, List.isEmpty_cons, if_neg]
      exact scoreLoop_eq_max _ 100 (by norm_num)
  refine ⟨fun signals => ⟨key signals, ?_, ?_⟩, by rfl, by rfl⟩
  · rw [key]; omega
  · rw [key]
    have : 0 ≤ ((signals.map (fun s => riskWeight s.type)).sum) :=
      List.sum_nonneg (by
        intro x hx
        rcases List.mem_map.mp hx with ⟨y, _, hy⟩
        exact hy ▸ riskWeight_nonneg y.type)
    omega

/-! ## Attribution engine (`src/attribution/resolver.js`) -/

/-- Prefix test on character lists (used to implement JavaScript
`String.prototype.indexOf`). -/
def leadsWith : List Char → List Char → Bool
  | [], _ => true
  | _ :: _, [] => false
  | p :: ps, c :: cs => p == c && leadsWith ps cs

/-- Index of the first occurrence of `pat` in a character list, if any. -/
def firstOccurAux (pat : List Char) : List Char → Option Nat
  | [] => if leadsWith pat [] then some 0 else none
  | c :: rest =>
    if leadsWith pat (c :: rest) then some 0
    else (firstOccurAux pat rest).map (· + 1)

/-- JavaScript `s.indexOf(pat)`, with `none` standing for `-1`. -/
def strIndexOf (s pat : String) : Option Nat :=
  firstOccurAux pat.toList s.toList

/-- `s.slice(n)`. -/
def strDrop (s : String) (n : Nat) : String := ⟨s.toList.drop n⟩

/-- `s.slice(0, n)`. -/
def strTake (s : String) (n : Nat) : String := ⟨s.toList.take n⟩

/-- JavaScript `s.split(sep)` for a one-character separator, on character
lists (`"".split('/')` is `[""]`, and empty groups are kept). -/
def splitOnChar (sep : Char) : List Char → List (List Char)
  | [] => [[]]
  | c :: rest =>
    let r := splitOnChar sep rest
    if c = sep then [] :: r
    else
      match r with
      | [] => [[c]]
      | g :: gs => (c :: g) :: gs

/-- `s.split('/')` as strings. -/
def strSplitSlash (s : String) : List String :=
  (splitOnChar '/' s.toList).map (fun l => ⟨l⟩)

/-- Collapse repeated `/` separators (the normalization `path.join` applies to
its `..`-free inputs). -/
def collapseSlashes : List Char → List Char
  | [] => []
  | [c] => [c]
  | c :: d :: rest =>
    if c = '/' ∧ d = '/' then collapseSlashes (d :: rest)
    else c :: collapseSlashes (d :: rest)

/-- Node `path.join` on POSIX separators for `..`-free segments: concatenate
with `/` and collapse duplicate separators. -/
def pathJoin (parts : List String) : String :=
  ⟨collapseSlashes (String.intercalate "/" parts).toList⟩

/-- A parsed `package.json` manifest (only the `version` field is read). -/
structure PackageManifest where
  version : Option String
deriving Repr, DecidableEq

/-- The filesystem as `readPackageJson` sees it: the manifests that parse
successfully, keyed by the full path of their `package.json` file.  (The
resolver's per-process cache is omitted: over a fixed filesystem it is
observation-equivalent to re-reading.) -/
def FsManifests := List (String × PackageManifest)

/-- `readPackageJson` (`resolver`, lines 563–588): read and parse
`<packageDir>/package.json`, collapsing missing files and parse errors to
`null`. -/
def readPackageJson (fsm : FsManifests) (packageDir : String) :
    Option PackageManifest :=
  (List.find? (fun p => p.1 == pathJoin [packageDir, "package.json"]) fsm).map
    (fun p => p.2)

/-- A package attribution as returned by the resolver. -/
structure Attribution where
  name : String
  version : String
  path : String
deriving Repr, DecidableEq

/-- `extractPackageInfo` (`resolver`, lines 509–550): slice the file path
just past the `node_modules` occurrence found by `indexOf`, split on the path
separator, handle `@scope/name` packages, rebuild the package directory with
`path.join`, and read its manifest (`version || 'unknown'`).  A scoped path
with no second segment makes `path.join` throw on `undefined`, which the
enclosing `try` collapses to `null`. -/
def extractPackageInfo (fsm : FsManifests) (filePath : String)
    (nodeModulesIndex : Nat) : Option Attribution :=
  let afterNodeModules := strDrop filePath (nodeModulesIndex + 12 + 1)
  let parts := strSplitSlash afterNodeModules
  let p0 := parts.headD ""
  if leadsWith ['@'] p0.toList then
    match parts.get? 1 with
    | none => none
    | some p1 =>
      let packageDir :=
        pathJoin [strTake filePath nodeModulesIndex, "node_modules", p0, p1]
      (readPackageJson fsm packageDir).map (fun m =>
        { name := p0 ++ "/" ++ p1
          version := (jsOrNull m.version).getD "unknown"
          path := packageDir })
  else
    let packageDir :=
      pathJoin [strTake filePath nodeModulesIndex, "node_modules", p0]
    (readPackageJson fsm packageDir).map (fun m =>
      { name := p0
        version := (jsOrNull m.version).getD "unknown"
        path := packageDir })

/-- The frame walk of `resolvePackageFromStack` (`resolver`, lines 458–496),
modelled on the list of file paths already extracted from the stack frames by
the frame regex: each path is searched for the substring `node_modules` with
JavaScript `indexOf` (the FIRST occurrence); paths without it are skipped as
first-party, and the first successful `extractPackageInfo` wins. -/
def resolveFramePaths (fsm : FsManifests) : List String → Option Attribution
  | [] => none
  | p :: rest =>
    match strIndexOf p "node_modules" with
    | none => resolveFramePaths fsm rest
    | some i =>
      match extractPackageInfo fsm p i with
      | some info => some info
      | none => resolveFramePaths fsm rest

/-- Manifest layout for a nested dependency `b` installed inside `a`. -/
def nestedDepFs : FsManifests :=
  [("/app/node_modules/a/package.json", { version := some "1.0.0" }),
   ("/app/node_modules/a/node_modules/b/package.json",
    { version := some "2.0.0" })]

/-- `C4` counterexample: the claim says attribution uses the RIGHTMOST
`node_modules` segment, so the nested-dependency path would attribute to `b`.
The resolver uses `indexOf`, the first (leftmost) occurrence, and attributes
`/app/node_modules/a/node_modules/b/index.js` to package `a`. -/
theorem resolveFramePaths_nested_not_b :
    (resolveFramePaths nestedDepFs
        ["/app/node_modules/a/node_modules/b/index.js"]).map Attribution.name
      = some "a" ∧
    (resolveFramePaths nestedDepFs
        ["/app/node_modules/a/node_modules/b/index.js"]).map Attribution.name
      ≠ some "b" := by
  constructor
  · rfl
  · intro h
    simp only [resolveFramePaths, nestedDepFs] at h
    exact absurd h (by decide)

/-- `C4` amended: attribution selects the LEFTMOST occurrence of
`node_modules` in a frame path (so the nested-dependency path attributes to
the outer package `a`), and a path with no `node_modules` substring is skipped
as first-party. -/
theorem resolveFramePaths_leftmost (fsm : FsManifests) (p : String)
    (h : strIndexOf p "node_modules" = none) :
    resolveFramePaths nestedDepFs
        ["/app/node_modules/a/node_modules/b/index.js"]
      = some { name := "a", version := "1.0.0",
               path := "/app/node_modules/a" } ∧
    resolveFramePaths fsm [p] = none := by
  refine ⟨rfl, ?_⟩
  simp [resolveFramePaths, h]

/-- Witness for the amended `C4` theorem at a first-party frame path. -/
theorem resolveFramePaths_leftmost_witness :
    resolveFramePaths [] ["/home/user/app/index.js"] = none :=
  (resolveFramePaths_leftmost [] "/home/user/app/index.js" (by decide)).2

/-! ## HTTP/HTTPS hook (`src/hooks/httpHook.js`) -/

/-- Suffix test on character lists (JavaScript `endsWith`). -/
def trailsWith (suf s : List Char) : Bool := leadsWith suf.reverse s.reverse

/-- Decimal rendering of an integer (JavaScript template-literal coercion of a
number). -/
def natToDigitsAux : Nat → Nat → List Char
  | 0, _ => []
  | fuel + 1, n =>
    if n < 10 then [Char.ofNat (48 + n)]
    else natToDigitsAux fuel (n / 10) ++ [Char.ofNat (48 + n % 10)]

def intToStr (n : Int) : String :=
  match n with
  | .ofNat m => ⟨natToDigitsAux (m + 1) m⟩
  | .negSucc m => ⟨'-' :: natToDigitsAux (m + 2) (m + 1)⟩

/-- An `options` object accepted by `http.request` / `https.request` (the
fields `parseRequestArgs` and `buildUrlFromOptions` read). -/
structure HttpOptions where
  host : Option String := none
  hostname : Option String := none
  port : Option Int := none
  method : Option String := none
  path : Option String := none
deriving Repr, DecidableEq

/-- The first argument of a `request(...)` call: a URL string, a `URL`
instance, an options object, or anything else. -/
inductive HttpFirstArg
  | str (s : String)
  | urlObj (href : String)
  | obj (o : HttpOptions)
  | other
deriving Repr, DecidableEq

/-- JavaScript `a || b` on string-valued options (empty string is falsy). -/
def jsOrStr (a b : Option String) : Option String :=
  match a with
  | some s => if s = "" then b else some s
  | none => b

/-- JavaScript `a || d` on number-valued options (`0` is falsy). -/
def jsOrInt (a : Option Int) (d : Int) : Int :=
  match a with
  | some n => if n = 0 then d else n
  | none => d

/-- ASCII upper-casing (JavaScript `toUpperCase` on the method strings). -/
def strUpper (s : String) : String :=
  ⟨s.toList.map (fun c =>
    if 'a' ≤ c ∧ c ≤ 'z' then Char.ofNat (c.toNat - 32) else c)⟩

/-- The normalized request info built by `parseRequestArgs`
(`httpHook.js`, lines 106–131). -/
structure RequestInfo where
  url : String
  method : String
  host : Option String
  port : Int
  path : String
deriving Repr, DecidableEq

/-- `buildUrlFromOptions` (`httpHook.js`, lines 140–150). -/
def buildUrlFromOptions (o : HttpOptions) (isHttps : Bool) : String :=
  let protocol := if isHttps then "https:" else "http:"
  let host := (jsOrStr (jsOrStr o.host o.hostname) (some "localhost")).getD ""
  let port := jsOrInt o.port (if isHttps then 443 else 80)
  let path := (jsOrStr o.path (some "/")).getD "/"
  let defaultPort : Int := if isHttps then 443 else 80
  let portPart := if port = defaultPort then "" else ":" ++ intToStr port
  protocol ++ "//" ++ host ++ portPart ++ path

/-- `parseRequestArgs` (`httpHook.js`, lines 106–131).  Crucially, when the
first argument is a URL STRING the options are `args[1] || {}` — the URL
string itself is never parsed, so `host` stays `undefined` and `port` falls
back to the protocol default. -/
def parseRequestArgs (a0 : HttpFirstArg) (a1 : Option HttpOptions)
    (isHttps : Bool) : Option RequestInfo :=
  let build (url : String) (options : HttpOptions) : RequestInfo :=
    { url := url
      method := strUpper ((jsOrStr options.method (some "GET")).getD "GET")
      host := jsOrStr options.host options.hostname
      port := jsOrInt options.port (if isHttps then 443 else 80)
      path := (jsOrStr options.path (some "/")).getD "/" }
  match a0 with
  | .str s => some (build s (a1.getD {}))
  | .urlObj href => some (build href (a1.getD {}))
  | .obj o => some (build (buildUrlFromOptions o isHttps) o)
  | .other => none

def isAsciiDigit (c : Char) : Bool := decide ('0' ≤ c ∧ c ≤ '9')

/-- One `\d{1,3}` group of the IP regex. -/
def ipGroupOk (g : List Char) : Bool :=
  decide (1 ≤ g.length) && decide (g.length ≤ 3) && g.all isAsciiDigit

/-- The anchored regex test
`/^\d{1,3}\.\d{1,3}\.\d{1,3}\.\d{1,3}$/.test(s)`: being anchored at both
ends, it holds exactly when splitting on `.` yields four all-digit groups of
one to three characters. -/
def ipPatternTest (s : String) : Bool :=
  match splitOnChar '.' s.toList with
  | [a, b, c, d] => ipGroupOk a && ipGroupOk b && ipGroupOk c && ipGroupOk d
  | _ => false

def suspiciousTlds : List String := [".tk", ".ml", ".ga", ".cf", ".gq", ".xyz"]

def pastebinHosts : List String :=
  ["pastebin.com", "paste.ee", "hastebin.com", "dpaste.com"]

/-- `analyzeSuspiciousness` (`httpHook.js`, lines 182–219).  The IP test
coerces an `undefined` host to the string `undefined`; the optional-chained
`endsWith`/`includes` checks are false for an `undefined` host; ports `80`,
`443` and `8080` all count as standard. -/
def analyzeSuspiciousness (info : RequestInfo) : Suspicious :=
  let ip := ipPatternTest (jsShow info.host)
  let tld :=
    match info.host with
    | some h => suspiciousTlds.any (fun t => trailsWith t.toList h.toList)
    | none => false
  let nsp := decide (info.port ≠ 80 ∧ info.port ≠ 443 ∧ info.port ≠ 8080)
  let pb :=
    match info.host with
    | some h => pastebinHosts.any (fun t => (strIndexOf h t).isSome)
    | none => false
  { isIpAddress := ip
    suspiciousTld := tld
    nonStandardPort := nsp
    pastebinLike := pb
    indicators :=
      (if ip then ["Direct IP request"] else []) ++
      (if tld then ["Suspicious TLD"] else []) ++
      (if nsp then ["Non-standard port: " ++ intToStr info.port] else []) ++
      (if pb then ["Pastebin-like service"] else []) }

/-- The request info the HTTP hook computes for
`http.request("http://192.168.1.100:8080/x")`. -/
def ipPortRequestInfo : RequestInfo :=
  { url := "http://192.168.1.100:8080/x", method := "GET", host := none,
    port := 80, path := "/" }

/-- A request info record with the host and port actually named by the URL
(what a parser that did read the URL string would produce). -/
def ipPortParsedInfo : RequestInfo :=
  { url := "http://192.168.1.100:8080/x", method := "GET",
    host := some "192.168.1.100", port := 8080, path := "/" }

/-- `C5` counterexample: for `http.request("http://192.168.1.100:8080/x")` the
hook's own parse leaves the host unset and the port at `80`, so the computed
`suspicious` record has `isIpAddress = false`, `nonStandardPort = false` and
no indicators; and even for host `192.168.1.100` with port `8080`,
`nonStandardPort` is `false` (8080 is in the allowed set) and no
`Non-standard port: 8080` indicator is produced — contradicting the claimed
`true`/`true`/indicator-membership. -/
theorem analyzeSuspiciousness_ip8080_counterexample :
    parseRequestArgs (.str "http://192.168.1.100:8080/x") none false
      = some ipPortRequestInfo ∧
    (analyzeSuspiciousness ipPortRequestInfo).isIpAddress = false ∧
    (analyzeSuspiciousness ipPortRequestInfo).nonStandardPort = false ∧
    (analyzeSuspiciousness ipPortRequestInfo).indicators = [] ∧
    (analyzeSuspiciousness ipPortParsedInfo).nonStandardPort = false ∧
    "Non-standard port: 8080" ∉
      (analyzeSuspiciousness ipPortParsedInfo).indicators := by
  refine ⟨rfl, rfl, rfl, rfl, rfl, ?_⟩
  intro h
  have : (analyzeSuspiciousness ipPortParsedInfo).indicators
      = ["Direct IP request"] := rfl
  rw [this] at h
  simp at h

/-- `C5` amended: the hook's argument parser does not read host or port out of
a URL string (host stays absent, port defaults to 80), so the monitored call
`http.request("http://192.168.1.100:8080/x")` gets an all-false `suspicious`
record; for a request info carrying host `192.168.1.100` and port `8080` the
analyzer reports `isIpAddress = true` with indicator `Direct IP request`, but
`nonStandardPort = false` because `8080` is one of the allowed ports
`80/443/8080`. -/
theorem analyzeSuspiciousness_ip8080_amended :
    analyzeSuspiciousness ipPortRequestInfo
      = { isIpAddress := false, suspiciousTld := false,
          nonStandardPort := false, pastebinLike := false,
          indicators := [] } ∧
    analyzeSuspiciousness ipPortParsedInfo
      = { isIpAddress := true, suspiciousTld := false,
          nonStandardPort := false, pastebinLike := false,
          indicators := ["Direct IP request"] } := ⟨rfl, rfl⟩

/-! ## Pattern matcher (`src/patterns/patternMatcher.js`) -/

/-- JavaScript `s.includes(sub)`. -/
def strIncludes (s sub : String) : Bool := (strIndexOf s sub).isSome

/-- ASCII lower-casing (JavaScript `toLowerCase` on URLs and commands). -/
def strLower (s : String) : String :=
  ⟨s.toList.map (fun c =>
    if 'A' ≤ c ∧ c ≤ 'Z' then Char.ofNat (c.toNat + 32) else c)⟩

/-- Modelled from the spec: the `DATA_EXFILTRATION_PATTERNS` table lives in
`src/patterns/malwareSignatures.js`, which is not among the provided sources.
Spec §4.5 lists the sensitive-file substrings (`.npmrc`, `.env`,
`.aws/credentials`, SSH key paths, etc.). -/
def dataExfiltrationSensitiveFiles : List String :=
  [".npmrc", ".env", ".aws/credentials", ".ssh/id_rsa"]

/-- Modelled from the spec: the known exfiltration-service substrings
(`pastebin`, `webhook.site`, …) of `DATA_EXFILTRATION_PATTERNS`. -/
def dataExfiltrationServices : List String := ["pastebin", "webhook.site"]

/-- A threat finding produced by the pattern matcher. -/
structure ThreatFinding where
  type : String
  severity : String
  package : Option String
  indicator : String
  details : List String := []
deriving Repr, DecidableEq

/-- The JavaScript strict comparison `signal.type === SignalType[k]`: when the
enumeration member `k` is missing, the right-hand side is `undefined` and a
string never strictly equals `undefined`. -/
def typeIsEnumMember (t : String) (k : String) : Bool :=
  match signalTypeGet k with
  | some v => t == v
  | none => false

/-- Append a sensitive-file hit to the per-package tally (a JavaScript `Map`
keyed by `signal.package`, in insertion order). -/
def tallyAdd (tally : List (Option String × List String)) (k : Option String)
    (f : String) : List (Option String × List String) :=
  match tally with
  | [] => [(k, [f])]
  | (k2, fs) :: rest =>
    if k2 = k then (k2, fs ++ [f]) :: rest
    else (k2, fs) :: tallyAdd rest k f

/-- The first loop of `detectDataExfiltration` (`patternMatcher.js`,
lines 251–288): collect per-package sensitive-file reads and push
`EXFILTRATION_SERVICE` findings for http(s)-typed signals whose URL names a
known service. -/
def exfilScan (signals : List Signal) :
    List ThreatFinding × List (Option String × List String) :=
  signals.foldl (fun acc s =>
    let acc :=
      if typeIsEnumMember s.type "FS_READ" then
        (acc.1,
         dataExfiltrationSensitiveFiles.foldl (fun t f =>
           if strIncludes (s.metadata.path.getD "") f then tallyAdd t s.package f
           else t) acc.2)
      else acc
    if typeIsEnumMember s.type "HTTP_REQUEST" ||
        typeIsEnumMember s.type "HTTPS_REQUEST" then
      let url := match s.metadata.url with
        | some u => strLower u
        | none => ""
      (acc.1 ++
        (dataExfiltrationServices.filter (fun sv => strIncludes url sv)).map
          (fun sv =>
            { type := "EXFILTRATION_SERVICE", severity := "CRITICAL",
              package := s.package, indicator := sv }),
       acc.2)
    else acc) ([], [])

/-- `detectDataExfiltration` (`patternMatcher.js`, lines 251–309): the scan
above followed by the correlation pass, which emits a
`SENSITIVE_FILE_PLUS_HTTP` finding for every tallied package that also has an
http(s)-typed signal anywhere in the buffer. -/
def detectDataExfiltration (signals : List Signal) : List ThreatFinding :=
  let scan := exfilScan signals
  scan.1 ++
    (scan.2.filter (fun pr =>
      signals.any (fun s =>
        s.package == pr.1 &&
        (typeIsEnumMember s.type "HTTP_REQUEST" ||
         typeIsEnumMember s.type "HTTPS_REQUEST")))).map
      (fun pr =>
        { type := "SENSITIVE_FILE_PLUS_HTTP", severity := "CRITICAL",
          package := pr.1
          indicator := "Read " ++ intToStr pr.2.length ++
            " sensitive file(s) and made HTTP request"
          details := pr.2 })

theorem typeIsEnumMember_http_false (t : String) :
    typeIsEnumMember t "HTTP_REQUEST" = false ∧
    typeIsEnumMember t "HTTPS_REQUEST" = false := ⟨rfl, rfl⟩

theorem exfilScan_findings_empty (signals : List Signal) :
    (exfilScan signals).1 = [] := by
  suffices h : ∀ acc : List ThreatFinding ×
      List (Option String × List String),
      (signals.foldl (fun acc s =>
        let acc :=
          if typeIsEnumMember s.type "FS_READ" then
            (acc.1,
             dataExfiltrationSensitiveFiles.foldl (fun t f =>
               if strIncludes (s.metadata.path.getD "") f then
                 tallyAdd t s.package f
               else t) acc.2)
          else acc
        if typeIsEnumMember s.type "HTTP_REQUEST" ||
            typeIsEnumMember s.type "HTTPS_REQUEST" then
          let url := match s.metadata.url with
            | some u => strLower u
            | none => ""
          (acc.1 ++
            (dataExfiltrationServices.filter (fun sv => strIncludes url sv)).map
              (fun sv =>
                { type := "EXFILTRATION_SERVICE", severity := "CRITICAL",
                  package := s.package, indicator := sv }),
           acc.2)
        else acc) acc).1 = acc.1 by
    exact h ([], [])
  induction signals with
  | nil => intro acc; rfl
  | cons s rest ih =>
    intro acc
    rw [List.foldl_cons, ih]
    rcases typeIsEnumMember_http_false s.type with ⟨h1, h2⟩
    simp only [h1, h2, Bool.or_self, Bool.false_eq_true, if_false]
    split <;> rfl

/-- The `FS_READ` signal of a read of `~/.aws/credentials` by `evil-pkg`. -/
def awsCredsReadSignal : Signal :=
  { type := "FS_READ", package := some "evil-pkg", version := some "1.0.0",
    metadata := { path := some "/home/user/.aws/credentials",
                  operation := some "readFileSync" },
    stackTrace := none }

/-- A buffer entry with the literal type string `HTTP_REQUEST` (what an
HTTP-request signal would look like if one could be constructed). -/
def httpRequestTypedSignal : Signal :=
  { type := "HTTP_REQUEST", package := some "evil-pkg",
    version := some "1.0.0",
    metadata := { url := some "https://evil.example/upload" },
    stackTrace := none }

/-- `C6`: the claim says a package with a sensitive-file read plus an http(s)
request gets a `critical` `SENSITIVE_FILE_PLUS_HTTP` finding.  Because
`SignalType.HTTP_REQUEST` / `SignalType.HTTPS_REQUEST` are `undefined`, the
detector's type comparisons never hold, so `detectDataExfiltration` returns
`[]` on EVERY buffer — even though the sensitive read is tallied (third
conjunct). -/
theorem detectDataExfiltration_never_fires :
    (∀ signals : List Signal, detectDataExfiltration signals = []) ∧
    detectDataExfiltration [awsCredsReadSignal, httpRequestTypedSignal]
      = [] ∧
    (exfilScan [awsCredsReadSignal, httpRequestTypedSignal]).2
      = [(some "evil-pkg", [".aws/credentials"])] := by
  have key : ∀ signals : List Signal, detectDataExfiltration signals = [] := by
    intro signals
    unfold detectDataExfiltration
    simp only []
    rw [show (exfilScan signals).1 = [] from exfilScan_findings_empty signals]
    have hp : ∀ pr : Option String × List String,
        (signals.any (fun s =>
          s.package == pr.1 &&
          (typeIsEnumMember s.type "HTTP_REQUEST" ||
           typeIsEnumMember s.type "HTTPS_REQUEST"))) = false := by
      intro pr
      simp only [List.any_eq_false]
      intro s _
      rcases typeIsEnumMember_http_false s.type with ⟨h1, h2⟩
      simp [h1, h2]
    simp [hp]
  exact ⟨key, key _, rfl⟩

/-! ## Interception wrappers (`fsHook.js` / `childProcHook.js` / `netHook.js`
/ `envHook.js`) -/

/-- The state a wrapped platform API runs in: the world `ω` the unwrapped API
reads and writes, and the monitor's own state `μ` (signal buffer and
attribution cache), which the unwrapped API never touches.  The source
emitters only read the world (attribution reads `package.json` files) and
only write the monitor state, which is why emission below is typed
`α → ω → μ → Except ε μ`. -/
structure HookState (ω μ : Type) where
  world : ω
  monitor : μ

/-- The wrapper body installed by `hookFunction` (`fsHook.js` lines 125–148
and `childProcHook.js` lines 89–115; the `netHook` wrappers and the `envHook`
proxy traps have the same shape): attempt signal emission inside
`try { … } catch { }` — any exception from stack capture, attribution or
emission is swallowed — then forward to the original unconditionally with the
original receiver and the argument tuple `args`. -/
def hookedCall {ω μ ε ρ α : Type} (orig : α → ω → Except ε ρ × ω)
    (emit : α → ω → μ → Except ε μ) (args : α) (st : HookState ω μ) :
    Except ε ρ × HookState ω μ :=
  let monitor2 :=
    match emit args st.world st.monitor with
    | .ok m => m
    | .error _ => st.monitor
  let res := orig args st.world
  (res.1, { world := res.2, monitor := monitor2 })

/-- The unwrapped API call, as the spec's transparency clause describes it:
the original API runs on the world and the monitor state is untouched. -/
def unwrappedCall {ω μ ε ρ α : Type} (orig : α → ω → Except ε ρ × ω)
    (args : α) (st : HookState ω μ) : Except ε ρ × HookState ω μ :=
  ((orig args st.world).1,
   { world := (orig args st.world).2, monitor := st.monitor })

/-- `C1`: every installed wrapper (fs, child-process, net, env) is
semantically transparent: for ANY original API and ANY emission step —
including one that throws — the wrapped call returns the identical value or
thrown error and leaves the identical world (side effects) as the unwrapped
call; the emission outcome only ever touches the monitor component, and an
emission exception is swallowed (monitor left as it was). -/
theorem hookedCall_transparent {ω μ ε ρ α : Type}
    (orig : α → ω → Except ε ρ × ω) (emit : α → ω → μ → Except ε μ)
    (args : α) (st : HookState ω μ) :
    (hookedCall orig emit args st).1 = (unwrappedCall orig args st).1 ∧
    (hookedCall orig emit args st).2.world
      = (unwrappedCall orig args st).2.world ∧
    (hookedCall orig emit args st).2.monitor
      = (match emit args st.world st.monitor with
         | .ok m => m
         | .error _ => st.monitor) :=
  ⟨rfl, rfl, rfl⟩

/-! ## Command sanitizer (`src/hooks/childProcHook.js`, `sanitizeCommand`) -/

/-- JavaScript `\s` on the ASCII range (space, tab, newline, carriage return,
vertical tab, form feed); `[\S]` is its complement. -/
def isJsSpace (c : Char) : Bool :=
  c = ' ' ∨ c = '\t' ∨ c = '\n' ∨ c = '\r' ∨
  c = Char.ofNat 11 ∨ c = Char.ofNat 12

/-- The greedy `[\S]+` group: the maximal non-whitespace prefix. -/
def takeNonSpace (s : List Char) : List Char :=
  s.takeWhile (fun c => !isJsSpace c)

/-- ASCII lower-casing of one character (the `/i` flag's case folding for the
flag patterns, which are ASCII). -/
def lowerChar (c : Char) : Char :=
  if 'A' ≤ c ∧ c ≤ 'Z' then Char.ofNat (c.toNat + 32) else c

/-- Case-insensitive literal match: strip `pat` (up to case) from the head of
`s` and return the remainder. -/
def stripCI : List Char → List Char → Option (List Char)
  | [], s => some s
  | _ :: _, [] => none
  | p :: ps, c :: cs =>
    if lowerChar p == lowerChar c then stripCI ps cs else none

/-- Match the regex `flag[= ][\S]+` (with `/i`) at the head of `s`, returning
the length of the greedy match. -/
def matchFlagAt (flag : List Char) (s : List Char) : Option Nat :=
  match stripCI flag s with
  | none => none
  | some rest =>
    match rest with
    | [] => none
    | sep :: rest2 =>
      if sep = '=' ∨ sep = ' ' then
        let t := takeNonSpace rest2
        if t.isEmpty then none else some (flag.length + 1 + t.length)
      else none

/-- JavaScript `\w` (word character, for `\b`). -/
def isWordChar (c : Char) : Bool :=
  ('a' ≤ c ∧ c ≤ 'z') ∨ ('A' ≤ c ∧ c ≤ 'Z') ∨ ('0' ≤ c ∧ c ≤ '9') ∨ c = '_'

/-- The `[A-Z_]` class of the credential-assignment patterns. -/
def isUpperUnd (c : Char) : Bool := ('A' ≤ c ∧ c ≤ 'Z') ∨ c = '_'

/-- Match the regex `\b[A-Z_]+kw=[\S]+` at the head of `s`, where `prev` is
the character before the head (for the `\b` word boundary) and `kw` is the
literal tail (`_KEY`, `_TOKEN` or `_SECRET`).  Because `=` is outside
`[A-Z_]`, the greedy `[A-Z_]+` with backtracking matches exactly when the
maximal `[A-Z_]` run is longer than `kw`, ends with `kw`, and is followed by
`=` and at least one non-space character. -/
def boundaryOk : Option Char → Bool
  | none => true
  | some c => !isWordChar c

def matchEnvAt (kw : List Char) (prev : Option Char) (s : List Char) :
    Option Nat :=
  if !boundaryOk prev then none
  else
    let run := s.takeWhile isUpperUnd
    if kw.length < run.length ∧ run.reverse.take kw.length = kw.reverse then
      match s.drop run.length with
      | c :: rest =>
        if c = '=' then
          let t := takeNonSpace rest
          if t.isEmpty then none else some (run.length + 1 + t.length)
        else none
      | [] => none
    else none


theorem lengthTakeWhileLe (p : Char → Bool) (l : List Char) :
    (l.takeWhile p).length ≤ l.length :=
  List.Sublist.length_le (List.takeWhile_sublist p)

theorem stripCI_length {pat s rest : List Char}
    (h : stripCI pat s = some rest) : s.length = pat.length + rest.length := by
  induction pat generalizing s with
  | nil =>
    simp only [stripCI, Option.some_inj] at h
    subst h; simp
  | cons p ps ih =>
    cases s with
    | nil => simp [stripCI] at h
    | cons c cs =>
      simp only [stripCI] at h
      split at h
      · have := ih h; simp only [List.length_cons]; omega
      · exact absurd h (by simp)

theorem matchFlagAt_bounds {flag s : List Char} {n : Nat}
    (h : matchFlagAt flag s = some n) : 0 < n ∧ n ≤ s.length := by
  unfold matchFlagAt at h
  rcases hst : stripCI flag s with _ | rest
  · rw [hst] at h; exact absurd h (by simp)
  · rw [hst] at h
    have hlen := stripCI_length hst
    cases rest with
    | nil => exact absurd h (by simp)
    | cons sep rest2 =>
      simp only at h
      split at h
      · split at h
        · exact absurd h (by simp)
        · have ht : (takeNonSpace rest2).length ≤ rest2.length :=
            lengthTakeWhileLe _ _
          simp only [Option.some_inj] at h
          subst h
          simp only [List.length_cons] at hlen ⊢
          omega
      · exact absurd h (by simp)

theorem matchEnvAt_bounds {kw s : List Char} {prev : Option Char} {n : Nat}
    (h : matchEnvAt kw prev s = some n) : 0 < n ∧ n ≤ s.length := by
  unfold matchEnvAt at h
  split at h
  · exact absurd h (by simp)
  · simp only [] at h
    split at h
    · rcases hd : s.drop (s.takeWhile isUpperUnd).length with _ | ⟨c, rest⟩ <;>
        rw [hd] at h
      · exact absurd h (by simp)
      · simp only [] at h
        split at h
        · split at h
          · exact absurd h (by simp)
          · have hrun : (s.takeWhile isUpperUnd).length ≤ s.length :=
              lengthTakeWhileLe _ _
            have ht : (takeNonSpace rest).length ≤ rest.length :=
              lengthTakeWhileLe _ _
            have hdl := congrArg List.length hd
            simp only [List.length_drop, List.length_cons] at hdl
            simp only [Option.some_inj] at h
            subst h
            omega
        · exact absurd h (by simp)
    · exact absurd h (by simp)

/-- One global-replace pass (`String.prototype.replace` with a `/g` regex):
scan left to right, rewriting each leftmost match to `repl` and continuing
after it.  The previous character is threaded through for the boundary test
of the credential-assignment patterns; the flag matchers ignore it.  Fuel is
one unit per scan step; since every step consumes at least one character,
`s.length` units always suffice. -/
def scanWith (M : Option Char → List Char → Option Nat) (repl : List Char) :
    Nat → Option Char → List Char → List Char
  | _, _, [] => []
  | 0, _, _ :: _ => []
  | fuel + 1, prev, a :: rest =>
    match M prev (a :: rest) with
    | some n =>
      repl ++ scanWith M repl fuel (((a :: rest).take n).getLast?)
        ((a :: rest).drop n)
    | none => a :: scanWith M repl fuel (some a) rest

/-- A full global-replace pass over `s`. -/
def runPass (M : Option Char → List Char → Option Nat) (repl : List Char)
    (s : List Char) : List Char :=
  scanWith M repl s.length none s

/-- The matcher of a flag pattern (no boundary, so the previous character is
ignored). -/
def flagM (flag : List Char) : Option Char → List Char → Option Nat :=
  fun _ s => matchFlagAt flag s

def truncationMarker : List Char := "...[TRUNCATED]".toList

/-- `sanitizeCommand` (`childProcHook.js`, lines 236–261) on character lists:
truncate to 200 characters with the marker appended, then run the four
`--flag` redactions (`/gi`) and the three credential-assignment redactions
(`/g`) in source order, each as a global replace. -/
def sanitizeCommand (command : List Char) : List Char :=
  let t0 := if 200 < command.length
    then command.take 200 ++ truncationMarker else command
  let t1 := runPass (flagM "--password".toList) "--password=***".toList t0
  let t2 := runPass (flagM "--token".toList) "--token=***".toList t1
  let t3 := runPass (flagM "--api-key".toList) "--api-key=***".toList t2
  let t4 := runPass (flagM "--secret".toList) "--secret=***".toList t3
  let t5 := runPass (matchEnvAt "_KEY".toList) "xxx_KEY=***".toList t4
  let t6 := runPass (matchEnvAt "_TOKEN".toList) "xxx_TOKEN=***".toList t5
  runPass (matchEnvAt "_SECRET".toList) "xxx_SECRET=***".toList t6

/-! ## Hook emitters (`envHook.js`, `fsHook.js`, `netHook.js`,
`childProcHook.js`) -/

/-- The first argument of a wrapped `fs` call, as `sanitizePath`
distinguishes its cases: string, byte buffer (UTF-8 decoded), URL-like,
numeric descriptor, anything else. -/
inductive FsPathArg
  | str (s : String)
  | buf (utf8 : String)
  | url (pathname : String)
  | fd (n : Int)
  | other
deriving Repr, DecidableEq

/-- `sanitizePath` (`fsHook.js`, lines 212–237): decode the argument to a
string and resolve it with the ambient `path.resolve` (passed in as
`resolve`, since it depends on the working directory); descriptors and
unknown types are unresolvable. -/
def sanitizePath (resolve : String → String) : FsPathArg → Option String
  | .str s => some (resolve s)
  | .buf s => some (resolve s)
  | .url p => some (resolve p)
  | .fd _ => none
  | .other => none

/-- `emitFsSignal` (`fsHook.js`, lines 163–195): attribution gate, path
sanitization gate, then `createSignal` and push (its own `try` swallowing a
`createSignal` throw). -/
def emitFsSignal (resolve : String → String) (ty : Option String)
    (attribution : Option Attribution) (filePath : FsPathArg)
    (operation : String) (stack : String) (buffer : List Signal) :
    List Signal :=
  match attribution with
  | none => buffer
  | some attr =>
    match sanitizePath resolve filePath with
    | none => buffer
    | some p =>
      match createSignal ty { path := some p, operation := some operation }
          (some attr.name) (some attr.version) (some stack) with
      | .ok s => buffer ++ [s]
      | .error _ => buffer

/-- `emitEnvAccessSignal` (`envHook.js`, lines 385–415): attribution gate,
then `createSignal` with the variable name only, and push. -/
def emitEnvAccessSignal (attribution : Option Attribution)
    (variableName : String) (stack : String) (buffer : List Signal) :
    List Signal :=
  match attribution with
  | none => buffer
  | some attr =>
    match createSignal (signalTypeGet "ENV_ACCESS")
        { variable_ := some variableName }
        (some attr.name) (some attr.version) (some stack) with
    | .ok s => buffer ++ [s]
    | .error _ => buffer

/-- An argument to a wrapped `child_process` function, as `extractCommand`
distinguishes them. -/
inductive CpArg
  | str (s : String)
  | arr (xs : List String)
deriving Repr, DecidableEq

/-- JavaScript `String(x)` / template coercion of a command argument
(`String(array)` joins with commas). -/
def cpArgToStr : CpArg → String
  | .str s => s
  | .arr xs => String.intercalate "," xs

/-- `sanitizeCommand` on a JavaScript value: non-strings are returned as
`String(command)` WITHOUT truncation or redaction (`childProcHook.js`,
lines 237–239). -/
def sanitizeCommandJs : CpArg → String
  | .str s => ⟨sanitizeCommand s.toList⟩
  | a => cpArgToStr a

/-- `extractCommand` (`childProcHook.js`, lines 184–220). -/
def extractCommand (args : List CpArg) (operation : String) : Option String :=
  match args with
  | [] => none
  | firstArg :: rest =>
    if operation = "exec" ∨ operation = "execSync" then
      some (sanitizeCommandJs firstArg)
    else if operation = "spawn" ∨ operation = "spawnSync" ∨
        operation = "execFile" ∨ operation = "execFileSync" then
      match rest.head? with
      | some (.arr xs) =>
        some ⟨sanitizeCommand
          (cpArgToStr firstArg ++ " " ++ String.intercalate " " xs).toList⟩
      | _ => some (sanitizeCommandJs firstArg)
    else if operation = "fork" then
      some ("node " ++ cpArgToStr firstArg)
    else
      some (sanitizeCommandJs firstArg)

/-- `emitShellSignal` (`childProcHook.js`, lines 130–166): attribution gate,
command-extraction gate, then `createSignal` and push. -/
def emitShellSignal (attribution : Option Attribution) (args : List CpArg)
    (operation : String) (stack : String) (buffer : List Signal) :
    List Signal :=
  match attribution with
  | none => buffer
  | some attr =>
    match extractCommand args operation with
    | none => buffer
    | some cmd =>
      match createSignal (signalTypeGet "SHELL_EXEC")
          { command := some cmd, operation := some operation }
          (some attr.name) (some attr.version) (some stack) with
      | .ok s => buffer ++ [s]
      | .error _ => buffer

/-- `emitNetSignal` (`netHook.js`, lines 428–459): attribution gate, then
`createSignal` with host, port and protocol, and push. -/
def emitNetSignal (attribution : Option Attribution) (host : String)
    (port : Int) (protocol : String) (stack : String) (buffer : List Signal) :
    List Signal :=
  match attribution with
  | none => buffer
  | some attr =>
    match createSignal (signalTypeGet "NET_CONNECT")
        { host := some host, port := some port, protocol := some protocol }
        (some attr.name) (some attr.version) (some stack) with
    | .ok s => buffer ++ [s]
    | .error _ => buffer

/-- A monitored event reaching one of the four installed emitters. -/
inductive HookEvent
  | envRead (varName : String)
  | fsOp (isRead : Bool) (arg : FsPathArg) (op : String)
  | shellOp (args : List CpArg) (op : String)
  | netConn (host : String) (port : Int) (protocol : String)

/-- Dispatch a monitored event to its emitter, with the attribution the
resolver produced for the freshly captured stack. -/
def emitStep (resolve : String → String) (attribution : Option Attribution)
    (stack : String) : HookEvent → List Signal → List Signal
  | .envRead v, buf => emitEnvAccessSignal attribution v stack buf
  | .fsOp isRead arg op, buf =>
    emitFsSignal resolve
      (if isRead then signalTypeGet "FS_READ" else signalTypeGet "FS_WRITE")
      attribution arg op stack buf
  | .shellOp args op, buf => emitShellSignal attribution args op stack buf
  | .netConn h p pr, buf => emitNetSignal attribution h p pr stack buf

theorem createSignal_push_attributed {t : String} (ht : t ∈ signalTypeValues)
    (md : Metadata) {nm : String} (hn : nm ≠ "") (ver st : String)
    (buf : List Signal) :
    ∀ s ∈ (match createSignal (some t) md (some nm) (some ver) (some st) with
           | .ok sig => buf ++ [sig]
           | .error _ => buf), s ∈ buf ∨ s.package ≠ none := by
  simp only [createSignal, if_pos ht]
  intro s hs
  rcases List.mem_append.mp hs with h1 | h2
  · exact .inl h1
  · right
    have hs2 : s.package = jsOrNull (some nm) := by
      have hseq : s = Signal.mk t (jsOrNull (some nm)) (jsOrNull (some ver))
          md (jsOrNull (some st)) := by simpa using h2
      rw [hseq]
    rw [hs2]
    simp [jsOrNull, hn]

theorem emitStep_attributed (resolve : String → String)
    (attr : Option Attribution) (stack : String) (ev : HookEvent)
    (buf : List Signal) (hattr : ∀ a, attr = some a → a.name ≠ "") :
    ∀ s ∈ emitStep resolve attr stack ev buf, s ∈ buf ∨ s.package ≠ none := by
  cases ev with
  | envRead v =>
    cases attr with
    | none => intro s hs; exact .inl hs
    | some a =>
      exact createSignal_push_attributed (t := "ENV_ACCESS") (by decide) _
        (hattr a rfl) _ _ _
  | fsOp isRead arg op =>
    cases attr with
    | none => intro s hs; exact .inl hs
    | some a =>
      simp only [emitStep, emitFsSignal]
      rcases sanitizePath resolve arg with _ | p
      · intro s hs; exact .inl hs
      · cases isRead
        · exact createSignal_push_attributed (t := "FS_WRITE") (by decide) _
            (hattr a rfl) _ _ _
        · exact createSignal_push_attributed (t := "FS_READ") (by decide) _
            (hattr a rfl) _ _ _
  | shellOp args op =>
    cases attr with
    | none => intro s hs; exact .inl hs
    | some a =>
      simp only [emitStep, emitShellSignal]
      rcases extractCommand args op with _ | cmd
      · intro s hs; exact .inl hs
      · exact createSignal_push_attributed (t := "SHELL_EXEC") (by decide) _
          (hattr a rfl) _ _ _
  | netConn h p pr =>
    cases attr with
    | none => intro s hs; exact .inl hs
    | some a =>
      exact createSignal_push_attributed (t := "NET_CONNECT") (by decide) _
        (hattr a rfl) _ _ _

/-- `C7` (corrected): each of the four installed emitters (env, fs, net,
child-process) gates on attribution and appends nothing when the resolver
returned `null` (first conjunct), and over any run of monitored events whose
attributions carry non-empty package names, every buffered signal has
`package ≠ none` (second conjunct).  The non-emptiness proviso is necessary:
the resolver can return an attribution whose `name` is the empty string, and
the wrapper then pushes a signal whose `package` is absent — see the
counterexample below. -/
theorem buffer_signals_attributed (resolve : String → String)
    (events : List (HookEvent × Option Attribution × String))
    (h : ∀ e ∈ events, ∀ a, e.2.1 = some a → a.name ≠ "") :
    (∀ ev stack buf, emitStep resolve none stack ev buf = buf) ∧
    ∀ s ∈ events.foldl
        (fun buf e => emitStep resolve e.2.1 e.2.2 e.1 buf) [],
      s.package ≠ none := by
  constructor
  · intro ev stack buf
    cases ev <;> rfl
  · suffices key : ∀ evs : List (HookEvent × Option Attribution × String),
        (∀ e ∈ evs, ∀ a, e.2.1 = some a → a.name ≠ "") →
        ∀ buf : List Signal, (∀ s ∈ buf, s.package ≠ none) →
        ∀ s ∈ evs.foldl
          (fun buf e => emitStep resolve e.2.1 e.2.2 e.1 buf) buf,
        s.package ≠ none by
      exact key events h [] (by intro s hs; cases hs)
    intro evs
    induction evs with
    | nil => intro _ buf hbuf; exact hbuf
    | cons e rest ih =>
      intro hh buf hbuf
      rw [List.foldl_cons]
      apply ih (fun e2 he2 => hh e2 (List.mem_cons_of_mem _ he2))
      intro s hs
      rcases emitStep_attributed resolve e.2.1 e.2.2 e.1 buf
        (hh e (List.mem_cons_self _ _)) s hs with h1 | h2
      · exact hbuf s h1
      · exact h2

/-- Witness for `C7` at a concrete run: a single env read attributed to
`left-pad` yields a buffer whose only signal carries that package. -/
theorem buffer_signals_attributed_witness :
    (Signal.mk "ENV_ACCESS" (some "left-pad") (some "1.0.0")
      { variable_ := some "HOME" } (some "stack")).package ≠ none :=
  (buffer_signals_attributed id
    [(HookEvent.envRead "HOME",
      (some { name := "left-pad", version := "1.0.0",
              path := "/app/node_modules/left-pad" } : Option Attribution),
      "stack")]
    (by
      intro e he a ha
      rcases List.mem_singleton.mp he with rfl
      injection ha with h2
      subst h2
      decide)).2
    (Signal.mk "ENV_ACCESS" (some "left-pad") (some "1.0.0")
      { variable_ := some "HOME" } (some "stack"))
    (by decide)

/-- `C7` counterexample: the original claim has no proviso, but the resolver
can produce an empty package name.  For the frame path
`/app/node_modules//payload.js` the leftmost `node_modules` is sliced off,
`parts[0]` is the empty string, the package directory collapses to
`/app/node_modules/`, and a manifest at `/app/node_modules/package.json`
makes `extractPackageInfo` return `name = ""`.  `createSignal` then stores
`package = jsOrNull "" = none` (JavaScript `'' || null`) and the env wrapper
still pushes the signal: the buffer holds a signal with an absent package,
refuting the unconditional claim. -/
theorem buffer_empty_name_package_none :
    (resolveFramePaths [("/app/node_modules/package.json",
        { version := some "1.0.0" })]
        ["/app/node_modules//payload.js"]).map Attribution.name
      = some "" ∧
    ([(HookEvent.envRead "HOME",
        resolveFramePaths [("/app/node_modules/package.json",
          { version := some "1.0.0" })] ["/app/node_modules//payload.js"],
        "stack")].foldl
        (fun buf e => emitStep id e.2.1 e.2.2 e.1 buf) []).map Signal.package
      = [none] := by
  constructor
  · rfl
  · rfl

/-! ## Install / uninstall state machine (`src/index.js` and the four hook
modules) -/

/-- A wrapped API binding.  JavaScript reference equality of function objects
is modelled by structural equality of this tree: every `install` creates a
fresh wrapper object around the binding it found. -/
inductive Binding
  | original
  | wrapped (inner : Binding)
deriving Repr, DecidableEq

/-- The `process.env` container: the platform's own container, or the
env-hook `Proxy` wrapping an inner container. -/
inductive EnvBinding
  | baseEnv
  | proxyOf (inner : EnvBinding)
deriving Repr, DecidableEq

/-- The monitor-relevant process state: the current API bindings, each hook
module's `isHookInstalled` flag and stored originals, the `index.js`
`hooksInstalled` flag, and the shared signal buffer. -/
structure MonitorState where
  envBinding : EnvBinding
  fsBinding : Binding
  netBinding : Binding
  cpBinding : Binding
  envInstalled : Bool
  fsInstalled : Bool
  netInstalled : Bool
  cpInstalled : Bool
  fsStored : Option Binding
  netStored : Option Binding
  cpStored : Option Binding
  hooksInstalled : Bool
  signals : List Signal
deriving Repr, DecidableEq

/-- `envHook.install` (`envHook.js`, lines 295–372): idempotent; wraps the
CURRENT `process.env` in a fresh `Proxy` and flips the flag. -/
def envHookInstall (st : MonitorState) : MonitorState :=
  if st.envInstalled then st
  else { st with envBinding := .proxyOf st.envBinding, envInstalled := true }

/-- `fsHook.install` (`fsHook.js`, lines 75–103): idempotent; stores the
current `fs` functions in `originalFunctions` and replaces them with
wrappers. -/
def fsHookInstall (st : MonitorState) : MonitorState :=
  if st.fsInstalled then st
  else { st with fsStored := some st.fsBinding,
                 fsBinding := .wrapped st.fsBinding, fsInstalled := true }

/-- `netHook.install` (`netHook.js`, lines 228–251). -/
def netHookInstall (st : MonitorState) : MonitorState :=
  if st.netInstalled then st
  else { st with netStored := some st.netBinding,
                 netBinding := .wrapped st.netBinding, netInstalled := true }

/-- `childProcHook.install` (`childProcHook.js`, lines 58–81). -/
def cpHookInstall (st : MonitorState) : MonitorState :=
  if st.cpInstalled then st
  else { st with cpStored := some st.cpBinding,
                 cpBinding := .wrapped st.cpBinding, cpInstalled := true }

/-- `envHook.uninstall` (`envHook.js`, lines 424–440): only flips the flag —
the source comment concedes the Proxy cannot be removed, so `process.env`
keeps pointing at it. -/
def envHookUninstall (st : MonitorState) : MonitorState :=
  if !st.envInstalled then st
  else { st with envInstalled := false }

/-- `fsHook.uninstall` (`fsHook.js`, lines 246–262): restores every stored
original binding. -/
def fsHookUninstall (st : MonitorState) : MonitorState :=
  if !st.fsInstalled then st
  else { st with fsBinding := st.fsStored.getD st.fsBinding,
                 fsInstalled := false }

/-- `netHook.uninstall` (`netHook.js`, lines 466–488). -/
def netHookUninstall (st : MonitorState) : MonitorState :=
  if !st.netInstalled then st
  else { st with netBinding := st.netStored.getD st.netBinding,
                 netInstalled := false }

/-- `childProcHook.uninstall` (`childProcHook.js`, lines 268–286). -/
def cpHookUninstall (st : MonitorState) : MonitorState :=
  if !st.cpInstalled then st
  else { st with cpBinding := st.cpStored.getD st.cpBinding,
                 cpInstalled := false }

/-- `init` (`index.js`, lines 46–88): install the four hooks in order (all
succeed in this model, as they do on a stock platform) and set
`hooksInstalled`. -/
def init (st : MonitorState) : MonitorState :=
  if st.hooksInstalled then st
  else
    let st := envHookInstall st
    let st := fsHookInstall st
    let st := netHookInstall st
    let st := cpHookInstall st
    { st with hooksInstalled := true }

/-- `teardown` (`index.js`, lines 136–172): uninstall the four hooks, clear
the flag and empty the signal buffer. -/
def teardown (st : MonitorState) : MonitorState :=
  let st := envHookUninstall st
  let st := fsHookUninstall st
  let st := netHookUninstall st
  let st := cpHookUninstall st
  { st with hooksInstalled := false, signals := [] }

/-- A read of `process.env[v]` through the current binding: each proxy
layer's `get` trap runs `emitEnvAccessSignal` (with no installed-flag check;
`envHook.js`, lines 313–324) and delegates inward; the base container emits
nothing. -/
def envReadThrough (attribution : Option Attribution) (v stack : String) :
    EnvBinding → List Signal → List Signal
  | .baseEnv, buf => buf
  | .proxyOf inner, buf =>
    envReadThrough attribution v stack inner
      (emitEnvAccessSignal attribution v stack buf)

/-- A monitored `process.env` read against the current state. -/
def envRead (st : MonitorState) (attribution : Option Attribution)
    (v stack : String) : MonitorState :=
  { st with
    signals := envReadThrough attribution v stack st.envBinding st.signals }

/-- A pristine process: platform bindings, no hooks, empty buffer. -/
def freshState : MonitorState :=
  { envBinding := .baseEnv, fsBinding := .original, netBinding := .original,
    cpBinding := .original, envInstalled := false, fsInstalled := false,
    netInstalled := false, cpInstalled := false, fsStored := none,
    netStored := none, cpStored := none, hooksInstalled := false,
    signals := [] }

/-- `C2` counterexample: after `init` then `teardown` on a pristine process,
`process.env` is NOT restored — it is still the Proxy — and a subsequent
monitored third-party read of `process.env` appends one signal, not zero. -/
theorem teardown_env_not_restored :
    (teardown (init freshState)).envBinding ≠ freshState.envBinding ∧
    (teardown (init freshState)).envBinding = .proxyOf .baseEnv ∧
    (envRead (teardown (init freshState))
        (some { name := "left-pad", version := "1.0.0",
                path := "/app/node_modules/left-pad" })
        "HOME" "stack").signals.length = 1 := by
  refine ⟨?_, rfl, rfl⟩
  intro h
  exact absurd h (by decide)

/-- `C2` amended: `init` then `teardown` restores the fs, net and
child-process bindings by reference equality and clears the buffer, but the
env container stays wrapped in the Proxy, and a subsequent monitored
attributed read of `process.env` appends exactly one signal (an unattributed
one appends none). -/
theorem teardown_restores_all_but_env (st0 : MonitorState)
    (hb : st0.envBinding = .baseEnv) (henv : st0.envInstalled = false)
    (hfs : st0.fsInstalled = false) (hnet : st0.netInstalled = false)
    (hcp : st0.cpInstalled = false) (hhi : st0.hooksInstalled = false)
    (attr : Attribution) (v stack : String) :
    (teardown (init st0)).fsBinding = st0.fsBinding ∧
    (teardown (init st0)).netBinding = st0.netBinding ∧
    (teardown (init st0)).cpBinding = st0.cpBinding ∧
    (teardown (init st0)).envBinding = .proxyOf st0.envBinding ∧
    (teardown (init st0)).signals = [] ∧
    (envRead (teardown (init st0)) (some attr) v stack).signals.length = 1 ∧
    (envRead (teardown (init st0)) none v stack).signals.length = 0 := by
  simp only [init, teardown, envHookInstall, fsHookInstall, netHookInstall,
    cpHookInstall, envHookUninstall, fsHookUninstall, netHookUninstall,
    cpHookUninstall, henv, hfs, hnet, hcp, hhi, hb, envRead, envReadThrough,
    emitEnvAccessSignal, createSignal, Bool.false_eq_true, if_false,
    Bool.not_false, if_true, Option.getD_some]
  simp [envReadThrough, emitEnvAccessSignal, createSignal, signalTypeGet,
    signalTypeEntries, signalTypeValues]

/-- Witness for the amended `C2` theorem at the pristine state. -/
theorem teardown_restores_all_but_env_witness :
    (teardown (init freshState)).fsBinding = freshState.fsBinding ∧
    (teardown (init freshState)).netBinding = freshState.netBinding ∧
    (teardown (init freshState)).cpBinding = freshState.cpBinding ∧
    (teardown (init freshState)).envBinding
      = .proxyOf freshState.envBinding ∧
    (teardown (init freshState)).signals = [] ∧
    (envRead (teardown (init freshState))
        (some { name := "chalk", version := "5.0.0",
                path := "/app/node_modules/chalk" })
        "PATH" "stack").signals.length = 1 ∧
    (envRead (teardown (init freshState)) none "PATH" "stack").signals.length
      = 0 :=
  teardown_restores_all_but_env freshState rfl rfl rfl rfl rfl rfl _ _ _

/-! ## Configuration validation (`src/config/schema.js`) -/

/-- A JavaScript value, as far as `validateConfig` inspects one. -/
inductive JsVal
  | vnum (n : Int)
  | vstr (s : String)
  | vbool (b : Bool)
  | vmissing
  | vobj (fields : List (String × JsVal))
  | varr (elems : List JsVal)

/-- Property lookup on an object literal (`undefined` when absent). -/
def jsObjGet (fields : List (String × JsVal)) (k : String) : JsVal :=
  match fields.find? (fun p => p.1 == k) with
  | some p => p.2
  | none => .vmissing

/-- JavaScript truthiness. -/
def truthy : JsVal → Bool
  | .vnum n => !(n == 0)
  | .vstr s => !(s == "")
  | .vbool b => b
  | .vmissing => false
  | .vobj _ => true
  | .varr _ => true

/-- `typeof v === 'object'` (arrays included). -/
def jsTypeofObject : JsVal → Bool
  | .vobj _ => true
  | .varr _ => true
  | _ => false

/-- `Object.entries(v)`. -/
def jsEntries : JsVal → List (String × JsVal)
  | .vobj fields => fields
  | .varr xs => xs.enum.map (fun p => (intToStr (Int.ofNat p.1), p.2))
  | _ => []

/-- Property access `v[k]` (only objects carry named properties here). -/
def jsGetProp : JsVal → String → JsVal
  | .vobj fields, k => jsObjGet fields k
  | _, _ => .vmissing

def isUndef : JsVal → Bool
  | .vmissing => true
  | _ => false

def isArr : JsVal → Bool
  | .varr _ => true
  | _ => false

/-- JavaScript `a >= b` as `validateConfig` uses it on threshold values
(numeric, or string-to-string lexicographic; mixed comparisons via `NaN` are
false). -/
def geJs : JsVal → JsVal → Bool
  | .vnum x, .vnum y => decide (x ≥ y)
  | .vstr x, .vstr y => decide (y ≤ x)
  | _, _ => false

/-- `typeof v !== 'number' || v < 0 || v > 100` (a threshold failing its
range/type check). -/
def badThreshold : JsVal → Bool
  | .vnum n => decide (n < 0) || decide (n > 100)
  | _ => true

/-- `typeof v !== 'number' || v < 0 || v > 100` for a risk weight. -/
def badWeight : JsVal → Bool
  | .vnum n => decide (n < 0) || decide (n > 100)
  | _ => true

/-- `typeof v !== 'number' || v < 1` for `maxSignals`. -/
def badMaxSignals : JsVal → Bool
  | .vnum n => decide (n < 1)
  | _ => true

def validHooks : List String := ["env", "fs", "net", "childProcess", "http"]

structure ValidationResult where
  valid : Bool
  errors : List String
deriving Repr, DecidableEq

/-- `validateConfig` (`schema.js`, lines 64–160), transcribed section by
section; `valid` is `errors.length === 0`.  Note the thresholds section
checks only the two ADJACENT pairs `critical >= high` and `high >= medium`,
each only when both members are defined. -/
def validateConfig (config : JsVal) : ValidationResult :=
  if !truthy config || !jsTypeofObject config then
    { valid := false, errors := ["Configuration must be an object"] }
  else
    let errs : List String := []
    let hooks := jsGetProp config "hooks"
    let errs :=
      if truthy hooks then
        if !jsTypeofObject hooks then errs ++ ["hooks must be an object"]
        else
          (jsEntries hooks).foldl (fun e p =>
            let e := if !(validHooks.contains p.1) then
                e ++ ["Invalid hook: " ++ p.1] else e
            match p.2 with
            | .vbool _ => e
            | _ => e ++ ["Hook " ++ p.1 ++ " must be a boolean"]) errs
      else errs
    let rw := jsGetProp config "riskWeights"
    let errs :=
      if truthy rw then
        if !jsTypeofObject rw then errs ++ ["riskWeights must be an object"]
        else
          (jsEntries rw).foldl (fun e p =>
            let e := if !(signalTypeValues.contains p.1) then
                e ++ ["Invalid signal type in riskWeights: " ++ p.1] else e
            if badWeight p.2 then
              e ++ ["Risk weight for " ++ p.1 ++
                " must be a number between 0-100"]
            else e) errs
      else errs
    let th := jsGetProp config "thresholds"
    let errs :=
      if truthy th then
        if !jsTypeofObject th then errs ++ ["thresholds must be an object"]
        else
          let critical := jsGetProp th "critical"
          let high := jsGetProp th "high"
          let medium := jsGetProp th "medium"
          let e := errs
          let e := if !isUndef critical && badThreshold critical then
              e ++ ["critical threshold must be 0-100"] else e
          let e := if !isUndef high && badThreshold high then
              e ++ ["high threshold must be 0-100"] else e
          let e := if !isUndef medium && badThreshold medium then
              e ++ ["medium threshold must be 0-100"] else e
          let e := if !isUndef critical && !isUndef high &&
              geJs critical high then
              e ++ ["critical threshold must be less than high threshold"]
            else e
          let e := if !isUndef high && !isUndef medium &&
              geJs high medium then
              e ++ ["high threshold must be less than medium threshold"]
            else e
          e
      else errs
    let wl := jsGetProp config "whitelist"
    let errs := if truthy wl && !isArr wl then
        errs ++ ["whitelist must be an array"] else errs
    let bl := jsGetProp config "blacklist"
    let errs := if truthy bl && !isArr bl then
        errs ++ ["blacklist must be an array"] else errs
    let pats := jsGetProp config "patterns"
    let errs := if truthy pats && !jsTypeofObject pats then
        errs ++ ["patterns must be an object"] else errs
    let perf := jsGetProp config "performance"
    let errs :=
      if truthy perf then
        if !jsTypeofObject perf then
          errs ++ ["performance must be an object"]
        else
          let ms := jsGetProp perf "maxSignals"
          if !isUndef ms && badMaxSignals ms then
            errs ++ ["maxSignals must be a positive number"]
          else errs
      else errs
    { valid := errs.isEmpty, errors := errs }

/-- A config whose only content is a thresholds section with the given
members. -/
def mkThresholdConfig (c h m : Option Int) : JsVal :=
  .vobj [("thresholds", .vobj
    ((match c with | some n => [("critical", JsVal.vnum n)] | none => []) ++
     (match h with | some n => [("high", JsVal.vnum n)] | none => []) ++
     (match m with | some n => [("medium", JsVal.vnum n)] | none => [])))]

/-- `C10` counterexample: with `high` absent, `critical = 80` and
`medium = 50` violate the claimed ordering `critical < medium`, yet
`validateConfig` reports the configuration valid with no errors. -/
theorem validateConfig_critical_medium_unchecked :
    validateConfig (mkThresholdConfig (some 80) none (some 50))
      = { valid := true, errors := [] } := rfl

/-- `C10` amended: `validateConfig` rejects an out-of-order ADJACENT pair of
defined in-range thresholds (`critical >= high`, `high >= medium`) with the
corresponding ordering error and `valid = false`, but when `high` is absent
the `critical`-versus-`medium` ordering is never checked and the
configuration validates. -/
theorem validateConfig_orders_adjacent_pairs (c h m c2 m2 : Int)
    (hc : 0 ≤ c ∧ c ≤ 100) (hh : 0 ≤ h ∧ h ≤ 100) (hm : 0 ≤ m ∧ m ≤ 100)
    (hch : c ≥ h) (hhm : h ≥ m)
    (hc2 : 0 ≤ c2 ∧ c2 ≤ 100) (hm2 : 0 ≤ m2 ∧ m2 ≤ 100) :
    validateConfig (mkThresholdConfig (some c) (some h) none)
      = { valid := false,
          errors :=
            ["critical threshold must be less than high threshold"] } ∧
    validateConfig (mkThresholdConfig none (some h) (some m))
      = { valid := false,
          errors := ["high threshold must be less than medium threshold"] } ∧
    validateConfig (mkThresholdConfig (some c2) none (some m2))
      = { valid := true, errors := [] } := by
  obtain ⟨hc1, hc2a⟩ := hc
  obtain ⟨hh1, hh2⟩ := hh
  obtain ⟨hm1, hm2a⟩ := hm
  obtain ⟨hc21, hc22⟩ := hc2
  obtain ⟨hm21, hm22⟩ := hm2
  have hcn : ¬c < 0 := by omega
  have hcg : ¬c > 100 := by omega
  have hhn : ¬h < 0 := by omega
  have hhg : ¬h > 100 := by omega
  have hmn : ¬m < 0 := by omega
  have hmg : ¬m > 100 := by omega
  have hc2n : ¬c2 < 0 := by omega
  have hc2g : ¬c2 > 100 := by omega
  have hm2n : ¬m2 < 0 := by omega
  have hm2g : ¬m2 > 100 := by omega
  refine ⟨?_, ?_, ?_⟩ <;>
    simp [validateConfig, mkThresholdConfig, jsGetProp, jsObjGet,
      jsEntries, truthy, jsTypeofObject, isUndef, badThreshold, geJs,
      isArr, List.find?, hcn, hcg, hhn, hhg, hmn, hmg, hc2n, hc2g,
      hm2n, hm2g, hch, hhm]

/-- Witness for the amended `C10` theorem at concrete thresholds. -/
theorem validateConfig_orders_adjacent_pairs_witness :
    validateConfig (mkThresholdConfig (some 90) (some 40) none)
      = { valid := false,
          errors :=
            ["critical threshold must be less than high threshold"] } ∧
    validateConfig (mkThresholdConfig none (some 40) (some 35))
      = { valid := false,
          errors := ["high threshold must be less than medium threshold"] } ∧
    validateConfig (mkThresholdConfig (some 90) none (some 40))
      = { valid := true, errors := [] } :=
  validateConfig_orders_adjacent_pairs 90 40 35 90 40
    (by norm_num) (by norm_num) (by norm_num) (by norm_num) (by norm_num)
    (by norm_num) (by norm_num)

set_option maxRecDepth 4000 in
/-- `C9` counterexample: the assignment redaction regexes require a word
boundary before the `[A-Z_]+` run, so a command containing `AWS_KEY=topsecret`
immediately preceded by a word character is not redacted at all (first
conjunct, whole secret survives), and a flag value containing whitespace is
only redacted up to the first space (second conjunct). -/
theorem sanitizeCommand_word_boundary_counterexample :
    sanitizeCommand "echo xAWS_KEY=topsecret".toList
      = "echo xAWS_KEY=topsecret".toList ∧
    sanitizeCommand "--password=a b".toList = "--password=*** b".toList := by
  constructor <;> decide

/-! ### Matcher properties used by the redaction proofs -/

theorem isUpperUnd_not_space {x : Char} (h : isUpperUnd x = true) :
    isJsSpace x = false := by
  simp only [isUpperUnd, decide_eq_true_eq] at h
  simp only [isJsSpace, Bool.decide_or, Bool.or_eq_false_iff, decide_eq_false_iff_not]
  rcases h with ⟨h1, h2⟩ | h1
  · refine ⟨?_, ?_, ?_, ?_, ?_, ?_⟩ <;> intro hx <;> subst hx <;> revert h1 h2 <;> decide
  · subst h1; refine ⟨by decide, by decide, by decide, by decide, by decide, by decide⟩

theorem space_not_dash {d : Char} (hd : isJsSpace d = true) :
    (lowerChar '-' == lowerChar d) = false := by
  simp only [isJsSpace, Bool.decide_or, Bool.or_eq_true, decide_eq_true_eq] at hd
  rcases hd with h|h|h|h|h|h <;> subst h <;> decide

theorem stripCI_drop {pat s rest : List Char} (h : stripCI pat s = some rest) :
    rest = s.drop pat.length := by
  induction pat generalizing s with
  | nil =>
    simp only [stripCI, Option.some_inj] at h
    simp [← h]
  | cons p ps ih =>
    cases s with
    | nil => simp [stripCI] at h
    | cons a as =>
      simp only [stripCI] at h
      split at h
      · simpa using ih h
      · exact absurd h (by simp)

theorem dropWhile_head_not (p : Char → Bool) (l : List Char) :
    l.dropWhile p = [] ∨
    ∃ d r2, l.dropWhile p = d :: r2 ∧ p d = false := by
  induction l with
  | nil => exact .inl rfl
  | cons a as ih =>
    by_cases h : p a
    · simpa [List.dropWhile_cons, h] using ih
    · right
      exact ⟨a, as, by simp [List.dropWhile_cons, h], by simpa using h⟩

theorem drop_takeWhile_length (p : Char → Bool) (l : List Char) :
    l.drop (l.takeWhile p).length = l.dropWhile p := by
  induction l with
  | nil => rfl
  | cons a as ih =>
    by_cases h : p a
    · simpa [List.takeWhile_cons, List.dropWhile_cons, h] using ih
    · simp [List.takeWhile_cons, List.dropWhile_cons, h]

theorem takeWhile_all_stop (p : Char → Bool) (P : List Char) (y : Char)
    (z : List Char) (hP : ∀ x ∈ P, p x = true) (hy : p y = false) :
    (P ++ y :: z).takeWhile p = P := by
  induction P with
  | nil => simp [List.takeWhile_cons, hy]
  | cons a as ih =>
    have ha := hP a (List.mem_cons_self a as)
    simp only [List.cons_append, List.takeWhile_cons, ha, if_true]
    rw [ih (fun x hx => hP x (List.mem_cons_of_mem _ hx))]

theorem takeNonSpace_exact (B D : List Char)
    (hB : ∀ x ∈ B, isJsSpace x = false)
    (hD : D = [] ∨ ∃ d r2, D = d :: r2 ∧ isJsSpace d = true) :
    takeNonSpace (B ++ D) = B := by
  unfold takeNonSpace
  rcases hD with rfl | ⟨d, r2, rfl, hd⟩
  · rw [List.append_nil]
    induction B with
    | nil => rfl
    | cons a as ih =>
      have ha := hB a (List.mem_cons_self a as)
      simp only [List.takeWhile_cons, ha, Bool.not_false, if_true]
      rw [ih (fun x hx => hB x (List.mem_cons_of_mem _ hx))]
  · exact takeWhile_all_stop _ B d r2
      (fun x hx => by simp [hB x hx]) (by simp [hd])

theorem matchFlagAt_endSpace {flag s : List Char} {n : Nat}
    (h : matchFlagAt flag s = some n) :
    s.drop n = [] ∨ ∃ d r2, s.drop n = d :: r2 ∧ isJsSpace d = true := by
  unfold matchFlagAt at h
  rcases hst : stripCI flag s with _ | rest <;> rw [hst] at h
  · simp at h
  · have hrd := stripCI_drop hst
    cases rest with
    | nil => simp at h
    | cons sep rest2 =>
      simp only at h
      split at h
      · split at h
        · simp at h
        · simp only [Option.some_inj] at h
          subst h
          have h2 : s.drop (flag.length + 1) = rest2 := by
            rw [← List.drop_drop, ← hrd]
            rfl
          have h3 : s.drop (flag.length + 1 + (takeNonSpace rest2).length)
              = rest2.drop (takeNonSpace rest2).length := by
            rw [← List.drop_drop, h2]
          rw [h3]
          unfold takeNonSpace
          rw [drop_takeWhile_length]
          rcases dropWhile_head_not (fun c => !isJsSpace c) rest2 with
            h4 | ⟨d, r2, h4, h5⟩
          · exact .inl h4
          · exact .inr ⟨d, r2, h4, by simpa using h5⟩
      · simp at h

theorem matchEnvAt_endSpace {kw s : List Char} {prev : Option Char} {n : Nat}
    (h : matchEnvAt kw prev s = some n) :
    s.drop n = [] ∨ ∃ d r2, s.drop n = d :: r2 ∧ isJsSpace d = true := by
  unfold matchEnvAt at h
  split at h
  · simp at h
  · simp only [] at h
    split at h
    · rcases hd : s.drop (s.takeWhile isUpperUnd).length with _ | ⟨e, rest⟩ <;>
        rw [hd] at h
      · simp at h
      · simp only [] at h
        split at h
        · split at h
          · simp at h
          · simp only [Option.some_inj] at h
            subst h
            have h2 : s.drop ((s.takeWhile isUpperUnd).length + 1) = rest := by
              rw [← List.drop_drop, hd]
              rfl
            have h3 : s.drop ((s.takeWhile isUpperUnd).length + 1 +
                (takeNonSpace rest).length)
                = rest.drop (takeNonSpace rest).length := by
              rw [← List.drop_drop, h2]
            rw [h3]
            unfold takeNonSpace
            rw [drop_takeWhile_length]
            rcases dropWhile_head_not (fun c => !isJsSpace c) rest with
              h4 | ⟨d, r2, h4, h5⟩
            · exact .inl h4
            · exact .inr ⟨d, r2, h4, by simpa using h5⟩
        · simp at h
    · simp at h

theorem matchFlagAt_space_none {flag : List Char} (hf : flag.head? = some '-')
    {d : Char} (hd : isJsSpace d = true) (rest : List Char) :
    matchFlagAt flag (d :: rest) = none := by
  rcases flag with _ | ⟨f0, fs⟩
  · simp at hf
  · simp only [List.head?_cons, Option.some_inj] at hf
    subst hf
    unfold matchFlagAt
    rw [show stripCI ('-' :: fs) (d :: rest) = none from by
      simp [stripCI, space_not_dash hd]]

theorem matchEnvAt_space_none (kw : List Char) (prev : Option Char)
    {d : Char} (hd : isJsSpace d = true) (rest : List Char) :
    matchEnvAt kw prev (d :: rest) = none := by
  unfold matchEnvAt
  have hud : isUpperUnd d = false := by
    cases hx : isUpperUnd d
    · rfl
    · have h2 := isUpperUnd_not_space hx
      rw [hd] at h2
      exact absurd h2 (by simp)
  split
  · rfl
  · simp [List.takeWhile_cons, hud]

/-- The three scan-relevant properties of a pattern matcher. -/
structure MatcherOk (M : Option Char → List Char → Option Nat) : Prop where
  bounds : ∀ prev s n, M prev s = some n → 1 ≤ n ∧ n ≤ s.length
  endSpace : ∀ prev s n, M prev s = some n →
    s.drop n = [] ∨ ∃ d r2, s.drop n = d :: r2 ∧ isJsSpace d = true
  noSpaceStart : ∀ prev d rest, isJsSpace d = true →
    M prev (d :: rest) = none

theorem flagM_ok (flag : List Char) (hf : flag.head? = some '-') :
    MatcherOk (flagM flag) := by
  refine ⟨?_, ?_, ?_⟩
  · intro prev s n h
    exact matchFlagAt_bounds h
  · intro prev s n h
    exact matchFlagAt_endSpace h
  · intro prev d rest hd
    exact matchFlagAt_space_none hf hd rest

theorem envM_ok (kw : List Char) : MatcherOk (matchEnvAt kw) := by
  refine ⟨?_, ?_, ?_⟩
  · intro prev s n h
    exact matchEnvAt_bounds h
  · intro prev s n h
    exact matchEnvAt_endSpace h
  · intro prev d rest hd
    exact matchEnvAt_space_none kw prev hd rest

theorem scanWith_nil (M : Option Char → List Char → Option Nat)
    (repl : List Char) (fuel : Nat) (prev : Option Char) :
    scanWith M repl fuel prev [] = [] := by
  cases fuel <;> rfl

theorem scanWith_no_intro {M : Option Char → List Char → Option Nat}
    {repl : List Char} {c : Char} (hc : c ∉ repl) :
    ∀ (fuel : Nat) (prev : Option Char) (s : List Char), c ∉ s →
      c ∉ scanWith M repl fuel prev s := by
  intro fuel
  induction fuel with
  | zero =>
    intro prev s hs
    cases s <;> simp [scanWith]
  | succ f ih =>
    intro prev s hs
    cases s with
    | nil => simp [scanWith]
    | cons a rest =>
      simp only [scanWith]
      split
      · intro hmem
        rcases List.mem_append.mp hmem with h1 | h2
        · exact hc h1
        · exact ih _ _ (fun hm => hs (List.mem_of_mem_drop hm)) h2
      · intro hmem
        rcases List.mem_cons.mp hmem with h1 | h2
        · exact hs (h1 ▸ List.mem_cons_self a rest)
        · exact ih _ _ (fun hm => hs (List.mem_cons_of_mem _ hm)) h2

/-- A list that is empty or starts with a whitespace character (the region
after a redactable value). -/
def spaceHead (l : List Char) : Prop :=
  l = [] ∨ ∃ d r2, l = d :: r2 ∧ isJsSpace d = true

theorem scanWith_spaceHead {M : Option Char → List Char → Option Nat}
    {repl : List Char} {c : Char} (hM : MatcherOk M) (hc : c ∉ repl)
    {D : List Char} (hD : spaceHead D) (hcD : c ∉ D) (fuel : Nat)
    (prev : Option Char) :
    c ∉ scanWith M repl fuel prev D ∧
    spaceHead (scanWith M repl fuel prev D) := by
  refine ⟨scanWith_no_intro hc fuel prev D hcD, ?_⟩
  rcases hD with rfl | ⟨d, r2, rfl, hd⟩
  · left
    exact scanWith_nil M repl fuel prev
  · cases fuel with
    | zero => left; rfl
    | succ f =>
      right
      exact ⟨d, scanWith M repl f (some d) r2,
        by simp [scanWith, hM.noSpaceStart prev d r2 hd], hd⟩

theorem drop_cons_space_pos {A P D : List Char} {n : Nat} {d : Char}
    {r2 : List Char} (hdrop : (A ++ P ++ D).drop n = d :: r2)
    (hd : isJsSpace d = true) (hP : ∀ x ∈ P, isJsSpace x = false) :
    n < A.length ∨ A.length + P.length ≤ n := by
  by_contra hcon
  push_neg at hcon
  obtain ⟨h1, h2⟩ := hcon
  have hA : A.drop n = [] := List.drop_eq_nil_of_le h1
  have e1 : (A ++ P ++ D).drop n
      = P.drop (n - A.length) ++ D.drop (n - A.length - P.length) := by
    rw [List.append_assoc, List.drop_append_eq_append_drop, hA,
      List.drop_append_eq_append_drop, List.nil_append]
  have hPd : P.drop (n - A.length) ≠ [] := by
    intro hnil
    have := List.drop_eq_nil_iff.mp hnil
    omega
  rcases hq : P.drop (n - A.length) with _ | ⟨p0, ps⟩
  · exact hPd hq
  · rw [e1, hq] at hdrop
    have hpd : p0 = d := by
      simpa using congrArg List.head? hdrop
    have hp0 : p0 ∈ P := List.mem_of_mem_drop (hq ▸ List.mem_cons_self p0 ps)
    rw [hpd] at hp0
    rw [hP d hp0] at hd
    cases hd

theorem not_mem_drop_of_ge {A P D : List Char} {c : Char} {n : Nat}
    (hcD : c ∉ D) (hge : A.length + P.length ≤ n) :
    c ∉ (A ++ P ++ D).drop n := by
  intro hmem
  have e1 : (A ++ P ++ D).drop n = D.drop (n - A.length - P.length) := by
    rw [List.append_assoc, List.drop_append_eq_append_drop,
      List.drop_eq_nil_of_le (by omega), List.drop_append_eq_append_drop,
      List.drop_eq_nil_of_le (by omega), List.nil_append, List.nil_append]
  rw [e1] at hmem
  exact hcD (List.mem_of_mem_drop hmem)

theorem getLast?_drop_of_lt {l : List Char} {n : Nat} (h : n < l.length) :
    (l.drop n).getLast? = l.getLast? := by
  conv_rhs => rw [← List.take_append_drop n l]
  rw [List.getLast?_append_of_ne_nil]
  intro hnil
  have := List.drop_eq_nil_iff.mp hnil
  omega

theorem scanWith_presB {M : Option Char → List Char → Option Nat}
    {repl : List Char} {c : Char} (hM : MatcherOk M) (hc : c ∉ repl)
    (hrne : repl ≠ []) (hrns : ∀ x ∈ repl, isJsSpace x = false) :
    ∀ (fuel : Nat) (prev : Option Char) (B D : List Char),
      (B ++ D).length ≤ fuel → B ≠ [] → (∀ x ∈ B, isJsSpace x = false) →
      spaceHead D → c ∉ D →
      ∃ Bo Do, scanWith M repl fuel prev (B ++ D) = Bo ++ Do ∧ Bo ≠ [] ∧
        (∀ x ∈ Bo, isJsSpace x = false) ∧ spaceHead Do ∧ c ∉ Do := by
  intro fuel
  induction fuel with
  | zero =>
    intro prev B D hf hB _ _ _
    cases B with
    | nil => exact absurd rfl hB
    | cons b B2 => simp at hf
  | succ f ih =>
    intro prev B D hf hB hBns hD hcD
    cases B with
    | nil => exact absurd rfl hB
    | cons b B2 =>
      simp only [List.cons_append] at hf ⊢
      rcases hm : M prev (b :: (B2 ++ D)) with _ | n
      · -- no match here: copy `b`
        rw [show scanWith M repl (f + 1) prev (b :: (B2 ++ D))
            = b :: scanWith M repl f (some b) (B2 ++ D) from by
          simp [scanWith, hm]]
        cases B2 with
        | nil =>
          have hsp := scanWith_spaceHead hM hc hD hcD f (some b)
          refine ⟨[b], scanWith M repl f (some b) D, by simp, by simp, ?_,
            hsp.2, hsp.1⟩
          intro x hx
          rw [List.mem_singleton.mp hx]
          exact hBns b (List.mem_cons_self b [])
        | cons b2 B3 =>
          obtain ⟨Bo, Do, heq, hBo, hBons, hDo, hcDo⟩ :=
            ih (some b) (b2 :: B3) D (by simp at hf ⊢; omega) (by simp)
              (fun x hx => hBns x (List.mem_cons_of_mem _ hx)) hD hcD
          refine ⟨b :: Bo, Do, by rw [heq]; rfl, by simp, ?_, hDo, hcDo⟩
          intro x hx
          rcases List.mem_cons.mp hx with rfl | hx2
          · exact hBns x (List.mem_cons_self x _)
          · exact hBons x hx2
      · -- match here: it swallows the whole of B
        rw [show scanWith M repl (f + 1) prev (b :: (B2 ++ D))
            = repl ++ scanWith M repl f
                (((b :: (B2 ++ D)).take n).getLast?)
                ((b :: (B2 ++ D)).drop n) from by
          simp [scanWith, hm]]
        rcases hM.endSpace prev _ n hm with hnil | ⟨d, r2, hdr, hd⟩
        · rw [hnil, scanWith_nil]
          exact ⟨repl, [], by simp, hrne, hrns, .inl rfl, by simp⟩
        · have hpos : n < (List.nil (α := Char)).length ∨
              (List.nil (α := Char)).length + (b :: B2).length ≤ n := by
            have hdr2 : ((([] : List Char) ++ (b :: B2) ++ D)).drop n
                = d :: r2 := by simpa using hdr
            exact drop_cons_space_pos hdr2 hd hBns
          have hge : (b :: B2).length ≤ n := by
            rcases hpos with h | h
            · simp at h
            · simpa using h
          have hcdrop : c ∉ (b :: (B2 ++ D)).drop n := by
            have h9 := not_mem_drop_of_ge (A := []) (P := b :: B2) (D := D)
              (c := c) (n := n) hcD (by simpa using hge)
            simpa using h9
          have hsd : spaceHead ((b :: (B2 ++ D)).drop n) :=
            .inr ⟨d, r2, hdr, hd⟩
          have hsp := scanWith_spaceHead hM hc hsd hcdrop f
            (((b :: (B2 ++ D)).take n).getLast?)
          exact ⟨repl, _, rfl, hrne, hrns, hsp.2, hsp.1⟩

theorem getLast?_cons_congr {B C : List Char} (a : Char)
    (h : B.getLast? = C.getLast?) : (a :: B).getLast? = (a :: C).getLast? := by
  cases B with
  | nil =>
    cases C with
    | nil => rfl
    | cons c2 C2 =>
      have h2 : (c2 :: C2).getLast?.isSome := List.getLast?_isSome.mpr (by simp)
      rw [← h] at h2
      simp at h2
  | cons b B2 =>
    cases C with
    | nil =>
      have h2 : (b :: B2).getLast?.isSome := List.getLast?_isSome.mpr (by simp)
      rw [h] at h2
      simp at h2
    | cons c2 C2 =>
      rw [List.getLast?_cons_cons, List.getLast?_cons_cons]
      exact h

theorem stripCI_self (pat z : List Char) : stripCI pat (pat ++ z) = some z := by
  induction pat with
  | nil => rfl
  | cons p ps ih => simp [stripCI, ih]

/-- The character standing immediately before a position, seen from the suffix
`A` that still has to be scanned before reaching it: the last element of `A`,
or `prev` when `A` is already exhausted. -/
def lastOr (prev : Option Char) (A : List Char) : Option Char :=
  match A.getLast? with
  | some a => some a
  | none => prev

theorem lastOr_cons (prev : Option Char) (a : Char) (A2 : List Char) :
    lastOr (some a) A2 = lastOr prev (a :: A2) := by
  cases A2 with
  | nil => simp [lastOr]
  | cons b B =>
    unfold lastOr
    rw [List.getLast?_cons_cons]
    rcases h : (b :: B).getLast? with _ | x
    · have h2 : (b :: B).getLast?.isSome := List.getLast?_isSome.mpr (by simp)
      rw [h] at h2
      simp at h2
    · rfl

theorem lastOr_of_getLast?_some {A : List Char} {x : Char}
    (h : A.getLast? = some x) (prev : Option Char) : lastOr prev A = some x := by
  unfold lastOr
  rw [h]

theorem isEmpty_false_of_ne_nil {X : List Char} (h : X ≠ []) :
    X.isEmpty = false := by
  cases X with
  | nil => exact absurd rfl h
  | cons a as => rfl

theorem matchFlagAt_fire (flag X D : List Char) (hXne : X ≠ [])
    (hXns : ∀ x ∈ X, isJsSpace x = false) (hD : spaceHead D) :
    matchFlagAt flag ((flag ++ '=' :: X) ++ D) = some (flag ++ '=' :: X).length := by
  have h1 : stripCI flag ((flag ++ '=' :: X) ++ D) = some ('=' :: (X ++ D)) := by
    rw [List.append_assoc]
    exact stripCI_self flag _
  have ht : takeNonSpace (X ++ D) = X := takeNonSpace_exact X D hXns hD
  unfold matchFlagAt
  rw [h1]
  simp [ht, isEmpty_false_of_ne_nil hXne, List.length_append]
  omega

theorem matchEnvAt_fire (kw W X D : List Char) {pr : Option Char}
    (hb : boundaryOk pr = true) (hWne : W ≠ [])
    (hW : ∀ x ∈ W, isUpperUnd x = true) (hkw : ∀ x ∈ kw, isUpperUnd x = true)
    (hXne : X ≠ []) (hXns : ∀ x ∈ X, isJsSpace x = false) (hD : spaceHead D) :
    matchEnvAt kw pr (((W ++ kw) ++ '=' :: X) ++ D)
      = some ((W ++ kw) ++ '=' :: X).length := by
  have hrun2aux : List.takeWhile isUpperUnd ((W ++ kw) ++ '=' :: (X ++ D))
      = W ++ kw :=
    takeWhile_all_stop isUpperUnd (W ++ kw) '=' (X ++ D)
      (fun x hx => by
        rcases List.mem_append.mp hx with h | h
        · exact hW x h
        · exact hkw x h)
      (by decide)
  have hrun : ((((W ++ kw) ++ '=' :: X) ++ D)).takeWhile isUpperUnd = W ++ kw := by
    rw [List.append_assoc]
    exact hrun2aux
  have hlen : kw.length < (W ++ kw).length := by
    have := List.length_pos.mpr hWne
    simp only [List.length_append]
    omega
  have hrev : (W ++ kw).reverse.take kw.length = kw.reverse := by
    rw [List.reverse_append, show kw.length = kw.reverse.length from
      (List.length_reverse kw).symm]
    exact List.take_left _ _
  have hdrop : ((((W ++ kw) ++ '=' :: X) ++ D)).drop (W ++ kw).length
      = '=' :: (X ++ D) := by
    rw [List.append_assoc]
    exact List.drop_left _ _
  have hrun2 : List.takeWhile isUpperUnd (W ++ (kw ++ '=' :: (X ++ D)))
      = W ++ kw := by
    rw [← List.append_assoc]
    exact hrun2aux
  have ht : takeNonSpace (X ++ D) = X := takeNonSpace_exact X D hXns hD
  unfold matchEnvAt
  simp [hb, hrun, hrun2, hlen, hrev, hdrop, ht, isEmpty_false_of_ne_nil hXne,
    List.length_append]
  have hWpos : 0 < W.length := List.length_pos.mpr hWne
  omega

theorem scanWith_elim {M : Option Char → List Char → Option Nat}
    {repl : List Char} {c : Char} (bOK : Option Char → Prop)
    (hM : MatcherOk M) (hc : c ∉ repl)
    {P D : List Char} (hPne : P ≠ []) (hPns : ∀ x ∈ P, isJsSpace x = false)
    (hcD : c ∉ D)
    (hfire : ∀ pr, bOK pr → M pr (P ++ D) = some P.length) :
    ∀ (fuel : Nat) (prev : Option Char) (A : List Char),
      (A ++ P ++ D).length ≤ fuel → c ∉ A → bOK (lastOr prev A) →
      c ∉ scanWith M repl fuel prev (A ++ P ++ D) := by
  intro fuel
  induction fuel with
  | zero =>
    intro prev A hf _ _
    exfalso
    have hp : 0 < P.length := List.length_pos.mpr hPne
    simp only [List.length_append] at hf
    omega
  | succ f ih =>
    intro prev A hf hcA hinv
    cases A with
    | nil =>
      rcases hP : P with _ | ⟨p, P2⟩
      · exact absurd hP hPne
      · subst hP
        rw [List.nil_append]
        have hm := hfire prev (by simpa [lastOr] using hinv)
        have hm2 : M prev (p :: (P2 ++ D)) = some (P2.length + 1) := by
          simpa using hm
        rw [show scanWith M repl (f + 1) prev ((p :: P2) ++ D)
            = repl ++ scanWith M repl f
                (((p :: (P2 ++ D)).take (P2.length + 1)).getLast?)
                ((p :: (P2 ++ D)).drop (P2.length + 1)) from by
          simp only [List.cons_append]
          simp only [scanWith, hm2]]
        have hdd : (p :: (P2 ++ D)).drop (P2.length + 1) = D := by
          rw [show (p :: (P2 ++ D)) = (p :: P2) ++ D from rfl,
            show P2.length + 1 = (p :: P2).length from rfl]
          exact List.drop_left _ _
        rw [hdd]
        intro hmem
        rcases List.mem_append.mp hmem with h1 | h2
        · exact hc h1
        · exact scanWith_no_intro hc f _ D hcD h2
    | cons a A2 =>
      rcases hm : M prev ((a :: A2) ++ P ++ D) with _ | n
      · have hm2 : M prev (a :: (A2 ++ (P ++ D))) = none := by
          simpa [List.append_assoc] using hm
        rw [show scanWith M repl (f + 1) prev ((a :: A2) ++ P ++ D)
            = a :: scanWith M repl f (some a) (A2 ++ P ++ D) from by
          simp only [List.cons_append, List.append_assoc]
          simp only [scanWith, hm2]]
        intro hmem
        rcases List.mem_cons.mp hmem with rfl | h2
        · exact hcA (List.mem_cons_self _ _)
        · refine ih (some a) A2 ?_ (fun hx => hcA (List.mem_cons_of_mem _ hx))
            ?_ h2
          · simp only [List.length_append, List.length_cons] at hf ⊢
            omega
          · rw [lastOr_cons prev]
            exact hinv
      · have hb1 := (hM.bounds prev _ n hm).1
        have hm2 : M prev (a :: (A2 ++ (P ++ D))) = some n := by
          simpa [List.append_assoc] using hm
        rw [show scanWith M repl (f + 1) prev ((a :: A2) ++ P ++ D)
            = repl ++ scanWith M repl f
                ((((a :: A2) ++ P ++ D).take n).getLast?)
                (((a :: A2) ++ P ++ D).drop n) from by
          simp only [List.cons_append, List.append_assoc]
          simp only [scanWith, hm2]]
        rcases hM.endSpace prev _ n hm with hnil | ⟨d, r2, hdr, hd⟩
        · rw [hnil, scanWith_nil]
          simpa using hc
        · rcases drop_cons_space_pos (A := a :: A2) (P := P) (D := D) hdr hd
            hPns with hlt | hge
          · have he : ((a :: A2) ++ P ++ D).drop n
                = (a :: A2).drop n ++ P ++ D := by
              rw [List.drop_append_eq_append_drop, List.drop_append_eq_append_drop]
              have h0 : n - (a :: A2).length = 0 := by omega
              have h1 : n - ((a :: A2) ++ P).length = 0 := by
                simp only [List.length_append]
                omega
              rw [h0, h1]
              simp
            rw [he]
            intro hmem
            rcases List.mem_append.mp hmem with h1 | h2
            · exact hc h1
            · have hAd : (a :: A2).drop n ≠ [] := by
                intro hnil2
                have := List.drop_eq_nil_iff.mp hnil2
                omega
              obtain ⟨x, hx⟩ := Option.isSome_iff_exists.mp
                (List.getLast?_isSome.mpr hAd)
              have hx2 : (a :: A2).getLast? = some x := by
                rw [← getLast?_drop_of_lt hlt]
                exact hx
              refine ih _ ((a :: A2).drop n) ?_
                (fun hm2 => hcA (List.mem_of_mem_drop hm2)) ?_ h2
              · simp only [List.length_append, List.length_cons,
                  List.length_drop] at hf ⊢
                omega
              · rw [lastOr_of_getLast?_some hx]
                rw [lastOr_of_getLast?_some hx2] at hinv
                exact hinv
          · intro hmem
            rcases List.mem_append.mp hmem with h1 | h2
            · exact hc h1
            · exact scanWith_no_intro hc f _ _
                (not_mem_drop_of_ge (A := a :: A2) (P := P) (D := D) hcD hge) h2

theorem scanWith_block {M : Option Char → List Char → Option Nat}
    {repl : List Char} {c : Char} (hM : MatcherOk M) (hc : c ∉ repl)
    {D : List Char} (hD : spaceHead D) (hcD : c ∉ D) :
    ∀ (fuel : Nat) (prev : Option Char) (Q : List Char),
      (Q ++ D).length ≤ fuel → (∀ x ∈ Q, isJsSpace x = false) →
      (∃ R, scanWith M repl fuel prev (Q ++ D) = Q ++ R ∧
        spaceHead R ∧ c ∉ R)
      ∨ (∃ j R, j ≤ Q.length ∧
          scanWith M repl fuel prev (Q ++ D) = Q.take j ++ repl ++ R ∧
          spaceHead R ∧ c ∉ R) := by
  intro fuel
  induction fuel with
  | zero =>
    intro prev Q hf _
    have h0 : Q ++ D = [] :=
      List.eq_nil_of_length_eq_zero (Nat.le_antisymm hf (Nat.zero_le _))
    obtain ⟨hQ, hD2⟩ := List.append_eq_nil.mp h0
    subst hQ
    subst hD2
    left
    exact ⟨[], by simp [scanWith_nil], Or.inl rfl, by simp⟩
  | succ f ih =>
    intro prev Q hf hQns
    cases Q with
    | nil =>
      left
      refine ⟨scanWith M repl (f + 1) prev D, by simp, ?_, ?_⟩
      · exact (scanWith_spaceHead hM hc hD hcD (f + 1) prev).2
      · exact (scanWith_spaceHead hM hc hD hcD (f + 1) prev).1
    | cons q Q2 =>
      rcases hm : M prev ((q :: Q2) ++ D) with _ | n
      · have hm2 : M prev (q :: (Q2 ++ D)) = none := by simpa using hm
        rw [show scanWith M repl (f + 1) prev ((q :: Q2) ++ D)
            = q :: scanWith M repl f (some q) (Q2 ++ D) from by
          simp only [List.cons_append]
          simp only [scanWith, hm2]]
        rcases ih (some q) Q2 (by simp only [List.length_append,
            List.length_cons] at hf ⊢; omega)
            (fun x hx => hQns x (List.mem_cons_of_mem _ hx)) with
          ⟨R, he, hR, hcR⟩ | ⟨j, R, hj, he, hR, hcR⟩
        · left
          exact ⟨R, by rw [he]; rfl, hR, hcR⟩
        · right
          refine ⟨j + 1, R, by simp only [List.length_cons]; omega, ?_, hR, hcR⟩
          rw [he]
          rfl
      · have hm2 : M prev (q :: (Q2 ++ D)) = some n := by simpa using hm
        rw [show scanWith M repl (f + 1) prev ((q :: Q2) ++ D)
            = repl ++ scanWith M repl f
                ((((q :: Q2) ++ D).take n).getLast?)
                (((q :: Q2) ++ D).drop n) from by
          simp only [List.cons_append]
          simp only [scanWith, hm2]]
        rcases hM.endSpace prev _ n hm with hnil | ⟨d, r2, hdr, hd⟩
        · right
          refine ⟨0, [], Nat.zero_le _, ?_, Or.inl rfl, by simp⟩
          rw [hnil, scanWith_nil]
          simp
        · have htri := drop_cons_space_pos (A := []) (P := q :: Q2) (D := D)
            (by simpa using hdr) hd hQns
          have hge : (q :: Q2).length ≤ n := by
            rcases htri with h | h
            · simp at h
            · simpa using h
          have hcdrop : c ∉ ((q :: Q2) ++ D).drop n := by
            have h9 := not_mem_drop_of_ge (A := []) (P := q :: Q2) (D := D)
              (c := c) (n := n) hcD (by simpa using hge)
            simpa using h9
          have hsd : spaceHead (((q :: Q2) ++ D).drop n) :=
            Or.inr ⟨d, r2, hdr, hd⟩
          right
          refine ⟨0, scanWith M repl f ((((q :: Q2) ++ D).take n).getLast?)
              (((q :: Q2) ++ D).drop n), Nat.zero_le _, by simp, ?_, ?_⟩
          · exact (scanWith_spaceHead hM hc hsd hcdrop f _).2
          · exact (scanWith_spaceHead hM hc hsd hcdrop f _).1

theorem scanWith_walk {M : Option Char → List Char → Option Nat}
    {repl : List Char} {c : Char} (hM : MatcherOk M) (hc : c ∉ repl)
    {Q D : List Char} (hQns : ∀ x ∈ Q, isJsSpace x = false)
    (hD : spaceHead D) (hcD : c ∉ D) :
    ∀ (fuel : Nat) (prev : Option Char) (A : List Char),
      (A ++ Q ++ D).length ≤ fuel → c ∉ A →
      (∃ A2 R, scanWith M repl fuel prev (A ++ Q ++ D) = A2 ++ Q ++ R ∧
        c ∉ A2 ∧ A2.getLast? = A.getLast? ∧ spaceHead R ∧ c ∉ R)
      ∨ (∃ A2 j R, scanWith M repl fuel prev (A ++ Q ++ D)
            = A2 ++ (Q.take j ++ repl ++ R) ∧
          c ∉ A2 ∧ A2.getLast? = A.getLast? ∧ j ≤ Q.length ∧
          spaceHead R ∧ c ∉ R)
      ∨ c ∉ scanWith M repl fuel prev (A ++ Q ++ D) := by
  intro fuel
  induction fuel with
  | zero =>
    intro prev A hf hcA
    have h0 : A ++ Q ++ D = [] :=
      List.eq_nil_of_length_eq_zero (Nat.le_antisymm hf (Nat.zero_le _))
    right
    right
    rw [h0, scanWith_nil]
    simp
  | succ f ih =>
    intro prev A hf hcA
    cases A with
    | nil =>
      rcases scanWith_block hM hc hD hcD (f + 1) prev Q
          (by simpa using hf) hQns with
        ⟨R, he, hR, hcR⟩ | ⟨j, R, hj, he, hR, hcR⟩
      · left
        exact ⟨[], R, by simpa using he, by simp, rfl, hR, hcR⟩
      · right
        left
        exact ⟨[], j, R, by simpa [List.append_assoc] using he, by simp, rfl,
          hj, hR, hcR⟩
    | cons a A2 =>
      rcases hm : M prev ((a :: A2) ++ Q ++ D) with _ | n
      · have hm2 : M prev (a :: (A2 ++ (Q ++ D))) = none := by
          simpa [List.append_assoc] using hm
        rw [show scanWith M repl (f + 1) prev ((a :: A2) ++ Q ++ D)
            = a :: scanWith M repl f (some a) (A2 ++ Q ++ D) from by
          simp only [List.cons_append, List.append_assoc]
          simp only [scanWith, hm2]]
        have hca : c ≠ a := fun hx => hcA (hx ▸ List.mem_cons_self a A2)
        rcases ih (some a) A2 (by simp only [List.length_append,
            List.length_cons] at hf ⊢; omega)
            (fun hx => hcA (List.mem_cons_of_mem _ hx)) with
          ⟨A3, R, he, hcA3, hl, hR, hcR⟩ | ⟨A3, j, R, he, hcA3, hl, hj, hR, hcR⟩ |
          hno
        · left
          refine ⟨a :: A3, R, by rw [he]; rfl, ?_, ?_, hR, hcR⟩
          · intro hx
            rcases List.mem_cons.mp hx with rfl | h2
            · exact hca rfl
            · exact hcA3 h2
          · exact getLast?_cons_congr a hl
        · right
          left
          refine ⟨a :: A3, j, R, by rw [he]; rfl, ?_, ?_, hj, hR, hcR⟩
          · intro hx
            rcases List.mem_cons.mp hx with rfl | h2
            · exact hca rfl
            · exact hcA3 h2
          · exact getLast?_cons_congr a hl
        · right
          right
          intro hx
          rcases List.mem_cons.mp hx with rfl | h2
          · exact hca rfl
          · exact hno h2
      · have hm2 : M prev (a :: (A2 ++ (Q ++ D))) = some n := by
          simpa [List.append_assoc] using hm
        have hb1 := (hM.bounds prev _ n hm).1
        rw [show scanWith M repl (f + 1) prev ((a :: A2) ++ Q ++ D)
            = repl ++ scanWith M repl f
                ((((a :: A2) ++ Q ++ D).take n).getLast?)
                (((a :: A2) ++ Q ++ D).drop n) from by
          simp only [List.cons_append, List.append_assoc]
          simp only [scanWith, hm2]]
        rcases hM.endSpace prev _ n hm with hnil | ⟨d, r2, hdr, hd⟩
        · right
          right
          rw [hnil, scanWith_nil]
          simpa using hc
        · rcases drop_cons_space_pos (A := a :: A2) (P := Q) (D := D) hdr hd
            hQns with hlt | hge
          · have he : ((a :: A2) ++ Q ++ D).drop n
                = (a :: A2).drop n ++ Q ++ D := by
              rw [List.drop_append_eq_append_drop, List.drop_append_eq_append_drop]
              have h0 : n - (a :: A2).length = 0 := by omega
              have h1 : n - ((a :: A2) ++ Q).length = 0 := by
                simp only [List.length_append]
                omega
              rw [h0, h1]
              simp
            rw [he]
            have hAd : (a :: A2).drop n ≠ [] := by
              intro hnil2
              have := List.drop_eq_nil_iff.mp hnil2
              omega
            obtain ⟨x, hx⟩ := Option.isSome_iff_exists.mp
              (List.getLast?_isSome.mpr hAd)
            have hx2 : (a :: A2).getLast? = some x := by
              rw [← getLast?_drop_of_lt hlt]
              exact hx
            rcases ih _ ((a :: A2).drop n) (by simp only [List.length_append,
                List.length_cons, List.length_drop] at hf ⊢; omega)
                (fun hm2b => hcA (List.mem_of_mem_drop hm2b)) with
              ⟨A3, R, he2, hcA3, hl, hR, hcR⟩ |
              ⟨A3, j, R, he2, hcA3, hl, hj, hR, hcR⟩ | hno
            · left
              have hA3 : A3 ≠ [] := by
                intro hnil3
                subst hnil3
                rw [hx] at hl
                simp at hl
              refine ⟨repl ++ A3, R, by rw [he2]; simp [List.append_assoc], ?_,
                ?_, hR, hcR⟩
              · intro hx3
                rcases List.mem_append.mp hx3 with h1 | h2
                · exact hc h1
                · exact hcA3 h2
              · rw [List.getLast?_append_of_ne_nil repl hA3, hl, hx, hx2]
            · right
              left
              have hA3 : A3 ≠ [] := by
                intro hnil3
                subst hnil3
                rw [hx] at hl
                simp at hl
              refine ⟨repl ++ A3, j, R, by rw [he2]; simp [List.append_assoc],
                ?_, ?_, hj, hR, hcR⟩
              · intro hx3
                rcases List.mem_append.mp hx3 with h1 | h2
                · exact hc h1
                · exact hcA3 h2
              · rw [List.getLast?_append_of_ne_nil repl hA3, hl, hx, hx2]
            · right
              right
              intro hx3
              rcases List.mem_append.mp hx3 with h1 | h2
              · exact hc h1
              · exact hno h2
          · right
            right
            intro hx3
            rcases List.mem_append.mp hx3 with h1 | h2
            · exact hc h1
            · exact scanWith_no_intro hc f _ _
                (not_mem_drop_of_ge (A := a :: A2) (P := Q) (D := D) hcD hge) h2

theorem runPass_preserve {M : Option Char → List Char → Option Nat}
    {repl : List Char} {c : Char} {Pre : List Char}
    (hM : MatcherOk M) (hc : c ∉ repl) (hrne : repl ≠ [])
    (hrns : ∀ x ∈ repl, isJsSpace x = false)
    (hcPre : c ∉ Pre) (hce : c ≠ '=')
    (hPns : ∀ x ∈ Pre, isJsSpace x = false)
    {A X D : List Char} (hcA : c ∉ A) (hXne : X ≠ [])
    (hXns : ∀ x ∈ X, isJsSpace x = false) (hD : spaceHead D) (hcD : c ∉ D) :
    (∃ A2 X2 D2, runPass M repl (A ++ (Pre ++ '=' :: X) ++ D)
        = A2 ++ (Pre ++ '=' :: X2) ++ D2 ∧ c ∉ A2 ∧
        A2.getLast? = A.getLast? ∧ X2 ≠ [] ∧
        (∀ x ∈ X2, isJsSpace x = false) ∧ spaceHead D2 ∧ c ∉ D2)
    ∨ c ∉ runPass M repl (A ++ (Pre ++ '=' :: X) ++ D) := by
  have hQns : ∀ x ∈ Pre ++ '=' :: X, isJsSpace x = false := by
    intro x hx
    rcases List.mem_append.mp hx with h | h
    · exact hPns x h
    · rcases List.mem_cons.mp h with rfl | h2
      · decide
      · exact hXns x h2
  unfold runPass
  rcases scanWith_walk (Q := Pre ++ '=' :: X) hM hc hQns hD hcD
      (A ++ (Pre ++ '=' :: X) ++ D).length none A le_rfl hcA with
    ⟨A2, R, he, hcA2, hl, hR, hcR⟩ |
    ⟨A2, j, R, he, hcA2, hl, hj, hR, hcR⟩ | hno
  · left
    exact ⟨A2, X, R, he, hcA2, hl, hXne, hXns, hR, hcR⟩
  · by_cases hjle : j ≤ Pre.length + 1
    · right
      rw [he]
      have htake : (Pre ++ '=' :: X).take j = (Pre ++ ['=']).take j := by
        rw [show Pre ++ '=' :: X = (Pre ++ ['=']) ++ X from by simp,
          List.take_append_eq_append_take]
        have h0 : j - (Pre ++ ['=']).length = 0 := by
          simp only [List.length_append, List.length_cons, List.length_nil]
          omega
        rw [h0]
        simp
      intro hmem
      rcases List.mem_append.mp hmem with h1 | h2
      · exact hcA2 h1
      · rcases List.mem_append.mp h2 with h3 | h4
        · rcases List.mem_append.mp h3 with h5 | h6
          · rw [htake] at h5
            have h7 := List.mem_of_mem_take h5
            rcases List.mem_append.mp h7 with h8 | h9
            · exact hcPre h8
            · rw [List.mem_singleton.mp h9] at hce
              exact hce rfl
          · exact hc h6
        · exact hcR h4
    · -- j > Pre.length + 1 : the match started inside the value X
      left
      have hj2 : (Pre ++ ['=']).length ≤ j := by
        simp only [List.length_append, List.length_cons, List.length_nil]
        omega
      have htake : (Pre ++ '=' :: X).take j
          = Pre ++ '=' :: X.take (j - (Pre.length + 1)) := by
        rw [show Pre ++ '=' :: X = (Pre ++ ['=']) ++ X from by simp,
          List.take_append_eq_append_take,
          List.take_of_length_le hj2]
        simp only [List.length_append, List.length_cons, List.length_nil]
        simp
      refine ⟨A2, X.take (j - (Pre.length + 1)) ++ repl, R, ?_, hcA2, hl,
        by simp [hrne], ?_, hR, hcR⟩
      · rw [he, htake]
        simp [List.append_assoc]
      · intro x hx
        rcases List.mem_append.mp hx with h1 | h2
        · exact hXns x (List.mem_of_mem_take h1)
        · exact hrns x h2
  · right
    exact hno

theorem runPass_elim_flag {flag repl : List Char} {c : Char}
    (hfh : flag.head? = some '-') (hc : c ∉ repl)
    (hfns : ∀ x ∈ flag, isJsSpace x = false)
    {A X D : List Char} (hXne : X ≠ [])
    (hXns : ∀ x ∈ X, isJsSpace x = false)
    (hD : spaceHead D) (hcA : c ∉ A) (hcD : c ∉ D) :
    c ∉ runPass (flagM flag) repl (A ++ (flag ++ '=' :: X) ++ D) := by
  refine scanWith_elim (fun _ => True) (flagM_ok flag hfh) hc
    (P := flag ++ '=' :: X) (by simp) ?_ hcD ?_ _ none A le_rfl hcA trivial
  · intro x hx
    rcases List.mem_append.mp hx with h | h
    · exact hfns x h
    · rcases List.mem_cons.mp h with rfl | h2
      · decide
      · exact hXns x h2
  · intro pr _
    exact matchFlagAt_fire flag X D hXne hXns hD

theorem runPass_elim_env {kw W repl : List Char} {c : Char} (hc : c ∉ repl)
    {A X D : List Char} (hWne : W ≠ [])
    (hW : ∀ x ∈ W, isUpperUnd x = true) (hkw : ∀ x ∈ kw, isUpperUnd x = true)
    (hXne : X ≠ []) (hXns : ∀ x ∈ X, isJsSpace x = false)
    (hD : spaceHead D) (hcA : c ∉ A) (hcD : c ∉ D)
    (hbnd : ∀ a, A.getLast? = some a → isWordChar a = false) :
    c ∉ runPass (matchEnvAt kw) repl (A ++ ((W ++ kw) ++ '=' :: X) ++ D) := by
  refine scanWith_elim (fun pr => boundaryOk pr = true) (envM_ok kw) hc
    (P := (W ++ kw) ++ '=' :: X) (by simp) ?_ hcD ?_ _ none A le_rfl hcA ?_
  · intro x hx
    rcases List.mem_append.mp hx with h | h
    · rcases List.mem_append.mp h with h1 | h2
      · exact isUpperUnd_not_space (hW x h1)
      · exact isUpperUnd_not_space (hkw x h2)
    · rcases List.mem_cons.mp h with rfl | h2
      · decide
      · exact hXns x h2
  · intro pr hpr
    exact matchEnvAt_fire kw W X D hpr hWne hW hkw hXne hXns hD
  · rcases hA : A.getLast? with _ | a
    · unfold lastOr
      rw [hA]
      rfl
    · rw [lastOr_of_getLast?_some hA]
      simp [boundaryOk, hbnd a hA]

/-- One redaction pass of `sanitizeCommand`: a matcher and its replacement. -/
abbrev RedPass : Type := (Option Char → List Char → Option Nat) × List Char

/-- Run a list of global-replace passes in order. -/
def applyPasses : List RedPass → List Char → List Char
  | [], s => s
  | p :: ps, s => applyPasses ps (runPass p.1 p.2 s)

/-- The seven redaction passes of `sanitizeCommand`, in source order. -/
def sanitizerPasses : List RedPass :=
  [(flagM "--password".toList, "--password=***".toList),
   (flagM "--token".toList, "--token=***".toList),
   (flagM "--api-key".toList, "--api-key=***".toList),
   (flagM "--secret".toList, "--secret=***".toList),
   (matchEnvAt "_KEY".toList, "xxx_KEY=***".toList),
   (matchEnvAt "_TOKEN".toList, "xxx_TOKEN=***".toList),
   (matchEnvAt "_SECRET".toList, "xxx_SECRET=***".toList)]

/-- Every character that any of the seven replacement strings can introduce. -/
def sanitizerChars : List Char :=
  "--password=***".toList ++ "--token=***".toList ++ "--api-key=***".toList ++
  "--secret=***".toList ++ "xxx_KEY=***".toList ++ "xxx_TOKEN=***".toList ++
  "xxx_SECRET=***".toList

theorem sanitizeCommand_eq_applyPasses (cmd : List Char) :
    sanitizeCommand cmd = applyPasses sanitizerPasses
      (if 200 < cmd.length then cmd.take 200 ++ truncationMarker else cmd) :=
  rfl

theorem applyPasses_no_intro {c : Char} :
    ∀ (L : List RedPass) (s : List Char), (∀ p ∈ L, c ∉ p.2) → c ∉ s →
      c ∉ applyPasses L s
  | [], _, _, hs => hs
  | p :: ps, s, hL, hs =>
    applyPasses_no_intro ps _ (fun q hq => hL q (List.mem_cons_of_mem _ hq))
      (scanWith_no_intro (hL p (List.mem_cons_self p ps)) _ none s hs)

/-- The per-pass facts needed to carry a protected occurrence through a pass
that is not the one redacting it. -/
def RedPassOk (c : Char) (p : RedPass) : Prop :=
  MatcherOk p.1 ∧ c ∉ p.2 ∧ p.2 ≠ [] ∧ ∀ x ∈ p.2, isJsSpace x = false

theorem applyPasses_preserve {c : Char} {Pre : List Char}
    (hcPre : c ∉ Pre) (hce : c ≠ '=')
    (hPns : ∀ x ∈ Pre, isJsSpace x = false) :
    ∀ (L : List RedPass), (∀ p ∈ L, RedPassOk c p) →
    ∀ (A X D : List Char), c ∉ A → X ≠ [] →
      (∀ x ∈ X, isJsSpace x = false) → spaceHead D → c ∉ D →
      (∃ A2 X2 D2, applyPasses L (A ++ (Pre ++ '=' :: X) ++ D)
          = A2 ++ (Pre ++ '=' :: X2) ++ D2 ∧ c ∉ A2 ∧
          A2.getLast? = A.getLast? ∧ X2 ≠ [] ∧
          (∀ x ∈ X2, isJsSpace x = false) ∧ spaceHead D2 ∧ c ∉ D2)
      ∨ c ∉ applyPasses L (A ++ (Pre ++ '=' :: X) ++ D) := by
  intro L
  induction L with
  | nil =>
    intro _ A X D hcA hXne hXns hD hcD
    left
    exact ⟨A, X, D, rfl, hcA, rfl, hXne, hXns, hD, hcD⟩
  | cons p ps ih =>
    intro hL A X D hcA hXne hXns hD hcD
    obtain ⟨hMok, hcr, hrne, hrns⟩ := hL p (List.mem_cons_self p ps)
    have hps : ∀ q ∈ ps, RedPassOk c q :=
      fun q hq => hL q (List.mem_cons_of_mem _ hq)
    show _ ∨ c ∉ applyPasses ps (runPass p.1 p.2 (A ++ (Pre ++ '=' :: X) ++ D))
    rcases runPass_preserve hMok hcr hrne hrns hcPre hce hPns hcA hXne hXns
        hD hcD with
      ⟨A2, X2, D2, he, hcA2, hl, hX2ne, hX2ns, hD2, hcD2⟩ | hno
    · rw [show applyPasses (p :: ps) (A ++ (Pre ++ '=' :: X) ++ D)
          = applyPasses ps (runPass p.1 p.2 (A ++ (Pre ++ '=' :: X) ++ D))
          from rfl, he]
      rcases ih hps A2 X2 D2 hcA2 hX2ne hX2ns hD2 hcD2 with
        ⟨A3, X3, D3, he3, hcA3, hl3, hX3ne, hX3ns, hD3, hcD3⟩ | hno3
      · left
        exact ⟨A3, X3, D3, he3, hcA3, hl.symm ▸ hl3, hX3ne, hX3ns, hD3, hcD3⟩
      · right
        exact hno3
    · right
      exact applyPasses_no_intro ps _ (fun q hq => (hps q hq).2.1) hno

theorem applyPasses_append (L1 L2 : List RedPass) (s : List Char) :
    applyPasses (L1 ++ L2) s = applyPasses L2 (applyPasses L1 s) := by
  induction L1 generalizing s with
  | nil => rfl
  | cons p ps ih => exact ih _

theorem applyPasses_redact_flag {c : Char} {flagL repl : List Char}
    {L1 L2 : List RedPass}
    (hL1 : ∀ p ∈ L1, RedPassOk c p) (hL2 : ∀ p ∈ L2, c ∉ p.2)
    (hfh : flagL.head? = some '-') (hcr : c ∉ repl)
    (hfns : ∀ x ∈ flagL, isJsSpace x = false) (hcf : c ∉ flagL) (hce : c ≠ '=')
    {A X D : List Char} (hcA : c ∉ A) (hXne : X ≠ [])
    (hXns : ∀ x ∈ X, isJsSpace x = false) (hD : spaceHead D) (hcD : c ∉ D) :
    c ∉ applyPasses (L1 ++ (flagM flagL, repl) :: L2)
        (A ++ (flagL ++ '=' :: X) ++ D) := by
  rw [applyPasses_append]
  rcases applyPasses_preserve hcf hce hfns L1 hL1 A X D hcA hXne hXns hD hcD
    with ⟨A2, X2, D2, he, hcA2, hl, hX2ne, hX2ns, hD2, hcD2⟩ | hno
  · show c ∉ applyPasses L2 (runPass (flagM flagL) repl (applyPasses L1 _))
    rw [he]
    exact applyPasses_no_intro L2 _ hL2
      (runPass_elim_flag hfh hcr hfns hX2ne hX2ns hD2 hcA2 hcD2)
  · refine applyPasses_no_intro ((flagM flagL, repl) :: L2) _ ?_ hno
    intro p hp
    rcases List.mem_cons.mp hp with rfl | h2
    · exact hcr
    · exact hL2 p h2

theorem applyPasses_redact_env {c : Char} {kwL W repl : List Char}
    {L1 L2 : List RedPass}
    (hL1 : ∀ p ∈ L1, RedPassOk c p) (hL2 : ∀ p ∈ L2, c ∉ p.2)
    (hcr : c ∉ repl) (hWne : W ≠ [])
    (hW : ∀ x ∈ W, isUpperUnd x = true) (hkw : ∀ x ∈ kwL, isUpperUnd x = true)
    (hcW : c ∉ W) (hck : c ∉ kwL) (hce : c ≠ '=')
    {A X D : List Char} (hcA : c ∉ A) (hXne : X ≠ [])
    (hXns : ∀ x ∈ X, isJsSpace x = false) (hD : spaceHead D) (hcD : c ∉ D)
    (hbnd : ∀ a, A.getLast? = some a → isWordChar a = false) :
    c ∉ applyPasses (L1 ++ (matchEnvAt kwL, repl) :: L2)
        (A ++ ((W ++ kwL) ++ '=' :: X) ++ D) := by
  rw [applyPasses_append]
  have hPns : ∀ x ∈ W ++ kwL, isJsSpace x = false := by
    intro x hx
    rcases List.mem_append.mp hx with h | h
    · exact isUpperUnd_not_space (hW x h)
    · exact isUpperUnd_not_space (hkw x h)
  have hcP : c ∉ W ++ kwL := by
    intro hx
    rcases List.mem_append.mp hx with h | h
    · exact hcW h
    · exact hck h
  rcases applyPasses_preserve hcP hce hPns L1 hL1 A X D hcA hXne hXns hD hcD
    with ⟨A2, X2, D2, he, hcA2, hl, hX2ne, hX2ns, hD2, hcD2⟩ | hno
  · show c ∉ applyPasses L2 (runPass (matchEnvAt kwL) repl (applyPasses L1 _))
    rw [he]
    refine applyPasses_no_intro L2 _ hL2
      (runPass_elim_env hcr hWne hW hkw hX2ne hX2ns hD2 hcA2 hcD2 ?_)
    intro a ha
    rw [hl] at ha
    exact hbnd a ha
  · refine applyPasses_no_intro ((matchEnvAt kwL, repl) :: L2) _ ?_ hno
    intro p hp
    rcases List.mem_cons.mp hp with rfl | h2
    · exact hcr
    · exact hL2 p h2

theorem sanitizerPasses_ok {c : Char} (hcs : c ∉ sanitizerChars) :
    ∀ p ∈ sanitizerPasses, RedPassOk c p := by
  have m1 : c ∈ "--password=***".toList → c ∈ sanitizerChars := fun h =>
    List.mem_append_left _ (List.mem_append_left _ (List.mem_append_left _
      (List.mem_append_left _ (List.mem_append_left _
        (List.mem_append_left _ h)))))
  have m2 : c ∈ "--token=***".toList → c ∈ sanitizerChars := fun h =>
    List.mem_append_left _ (List.mem_append_left _ (List.mem_append_left _
      (List.mem_append_left _ (List.mem_append_left _
        (List.mem_append_right _ h)))))
  have m3 : c ∈ "--api-key=***".toList → c ∈ sanitizerChars := fun h =>
    List.mem_append_left _ (List.mem_append_left _ (List.mem_append_left _
      (List.mem_append_left _ (List.mem_append_right _ h))))
  have m4 : c ∈ "--secret=***".toList → c ∈ sanitizerChars := fun h =>
    List.mem_append_left _ (List.mem_append_left _ (List.mem_append_left _
      (List.mem_append_right _ h)))
  have m5 : c ∈ "xxx_KEY=***".toList → c ∈ sanitizerChars := fun h =>
    List.mem_append_left _ (List.mem_append_left _ (List.mem_append_right _ h))
  have m6 : c ∈ "xxx_TOKEN=***".toList → c ∈ sanitizerChars := fun h =>
    List.mem_append_left _ (List.mem_append_right _ h)
  have m7 : c ∈ "xxx_SECRET=***".toList → c ∈ sanitizerChars := fun h =>
    List.mem_append_right _ h
  intro p hp
  simp only [sanitizerPasses, List.mem_cons, List.not_mem_nil, or_false] at hp
  rcases hp with rfl | rfl | rfl | rfl | rfl | rfl | rfl
  · exact ⟨flagM_ok _ (by decide), fun h => hcs (m1 h), by decide, by decide⟩
  · exact ⟨flagM_ok _ (by decide), fun h => hcs (m2 h), by decide, by decide⟩
  · exact ⟨flagM_ok _ (by decide), fun h => hcs (m3 h), by decide, by decide⟩
  · exact ⟨flagM_ok _ (by decide), fun h => hcs (m4 h), by decide, by decide⟩
  · exact ⟨envM_ok _, fun h => hcs (m5 h), by decide, by decide⟩
  · exact ⟨envM_ok _, fun h => hcs (m6 h), by decide, by decide⟩
  · exact ⟨envM_ok _, fun h => hcs (m7 h), by decide, by decide⟩

/-- C9 (corrected): `sanitizeCommand` redacts credential values under the
provisos the regexes actually impose.  For an untruncated command (at most
200 characters) containing `flag=value` for one of the four redacted flags,
or `W<kw>=value` with `kw` one of `_KEY`/`_TOKEN`/`_SECRET`, `W` a non-empty
`[A-Z_]+` run, and a non-word character (or start of string) before `W`,
every character `c` occurring only in the whitespace-free value — in neither
the surrounding text, the flag or variable name, `=`, nor any replacement
string — is absent from the sanitized command. -/
theorem sanitizeCommand_redacts_values :
    (∀ flag ∈ ["--password", "--token", "--api-key", "--secret"],
      ∀ (pre X suf : List Char) (c : Char),
        (pre ++ (flag.toList ++ '=' :: X) ++ suf).length ≤ 200 →
        X ≠ [] → (∀ x ∈ X, isJsSpace x = false) → spaceHead suf →
        c ∉ pre → c ∉ suf → c ∉ flag.toList → c ≠ '=' → c ∉ sanitizerChars →
        c ∉ sanitizeCommand (pre ++ (flag.toList ++ '=' :: X) ++ suf)) ∧
    (∀ kw ∈ ["_KEY", "_TOKEN", "_SECRET"],
      ∀ (pre W X suf : List Char) (c : Char),
        (pre ++ ((W ++ kw.toList) ++ '=' :: X) ++ suf).length ≤ 200 →
        W ≠ [] → (∀ x ∈ W, isUpperUnd x = true) →
        (∀ a, pre.getLast? = some a → isWordChar a = false) →
        X ≠ [] → (∀ x ∈ X, isJsSpace x = false) → spaceHead suf →
        c ∉ pre → c ∉ suf → c ∉ W → c ∉ kw.toList → c ≠ '=' →
        c ∉ sanitizerChars →
        c ∉ sanitizeCommand (pre ++ ((W ++ kw.toList) ++ '=' :: X) ++ suf)) := by
  constructor
  · intro flag hflag pre X suf c hlen hXne hXns hsuf hcpre hcsuf hcflag hce hcs
    have hall := sanitizerPasses_ok hcs
    rw [sanitizeCommand_eq_applyPasses, if_neg (by omega)]
    simp only [List.mem_cons, List.not_mem_nil, or_false] at hflag
    rcases hflag with rfl | rfl | rfl | rfl
    · have hsp : sanitizerPasses = [] ++
          (flagM "--password".toList, "--password=***".toList) ::
          [(flagM "--token".toList, "--token=***".toList),
           (flagM "--api-key".toList, "--api-key=***".toList),
           (flagM "--secret".toList, "--secret=***".toList),
           (matchEnvAt "_KEY".toList, "xxx_KEY=***".toList),
           (matchEnvAt "_TOKEN".toList, "xxx_TOKEN=***".toList),
           (matchEnvAt "_SECRET".toList, "xxx_SECRET=***".toList)] := rfl
      rw [hsp]
      have hfh : ("--password".toList).head? = some '-' := by decide
      have hfns : ∀ x ∈ "--password".toList, isJsSpace x = false := by decide
      refine applyPasses_redact_flag ?_ ?_ hfh ?_ hfns hcflag hce hcpre hXne
        hXns hsuf hcsuf
      · exact fun p hp => hall p (hsp.symm ▸ List.mem_append_left _ hp)
      · exact fun p hp => (hall p (hsp.symm ▸ List.mem_append_right _
          (List.mem_cons_of_mem _ hp))).2.1
      · exact (hall _ (hsp.symm ▸ List.mem_append_right _
          (List.mem_cons_self _ _))).2.1
    · have hsp : sanitizerPasses =
          [(flagM "--password".toList, "--password=***".toList)] ++
          (flagM "--token".toList, "--token=***".toList) ::
          [(flagM "--api-key".toList, "--api-key=***".toList),
           (flagM "--secret".toList, "--secret=***".toList),
           (matchEnvAt "_KEY".toList, "xxx_KEY=***".toList),
           (matchEnvAt "_TOKEN".toList, "xxx_TOKEN=***".toList),
           (matchEnvAt "_SECRET".toList, "xxx_SECRET=***".toList)] := rfl
      rw [hsp]
      have hfh : ("--token".toList).head? = some '-' := by decide
      have hfns : ∀ x ∈ "--token".toList, isJsSpace x = false := by decide
      refine applyPasses_redact_flag ?_ ?_ hfh ?_ hfns hcflag hce hcpre hXne
        hXns hsuf hcsuf
      · exact fun p hp => hall p (hsp.symm ▸ List.mem_append_left _ hp)
      · exact fun p hp => (hall p (hsp.symm ▸ List.mem_append_right _
          (List.mem_cons_of_mem _ hp))).2.1
      · exact (hall _ (hsp.symm ▸ List.mem_append_right _
          (List.mem_cons_self _ _))).2.1
    · have hsp : sanitizerPasses =
          [(flagM "--password".toList, "--password=***".toList),
           (flagM "--token".toList, "--token=***".toList)] ++
          (flagM "--api-key".toList, "--api-key=***".toList) ::
          [(flagM "--secret".toList, "--secret=***".toList),
           (matchEnvAt "_KEY".toList, "xxx_KEY=***".toList),
           (matchEnvAt "_TOKEN".toList, "xxx_TOKEN=***".toList),
           (matchEnvAt "_SECRET".toList, "xxx_SECRET=***".toList)] := rfl
      rw [hsp]
      have hfh : ("--api-key".toList).head? = some '-' := by decide
      have hfns : ∀ x ∈ "--api-key".toList, isJsSpace x = false := by decide
      refine applyPasses_redact_flag ?_ ?_ hfh ?_ hfns hcflag hce hcpre hXne
        hXns hsuf hcsuf
      · exact fun p hp => hall p (hsp.symm ▸ List.mem_append_left _ hp)
      · exact fun p hp => (hall p (hsp.symm ▸ List.mem_append_right _
          (List.mem_cons_of_mem _ hp))).2.1
      · exact (hall _ (hsp.symm ▸ List.mem_append_right _
          (List.mem_cons_self _ _))).2.1
    · have hsp : sanitizerPasses =
          [(flagM "--password".toList, "--password=***".toList),
           (flagM "--token".toList, "--token=***".toList),
           (flagM "--api-key".toList, "--api-key=***".toList)] ++
          (flagM "--secret".toList, "--secret=***".toList) ::
          [(matchEnvAt "_KEY".toList, "xxx_KEY=***".toList),
           (matchEnvAt "_TOKEN".toList, "xxx_TOKEN=***".toList),
           (matchEnvAt "_SECRET".toList, "xxx_SECRET=***".toList)] := rfl
      rw [hsp]
      have hfh : ("--secret".toList).head? = some '-' := by decide
      have hfns : ∀ x ∈ "--secret".toList, isJsSpace x = false := by decide
      refine applyPasses_redact_flag ?_ ?_ hfh ?_ hfns hcflag hce hcpre hXne
        hXns hsuf hcsuf
      · exact fun p hp => hall p (hsp.symm ▸ List.mem_append_left _ hp)
      · exact fun p hp => (hall p (hsp.symm ▸ List.mem_append_right _
          (List.mem_cons_of_mem _ hp))).2.1
      · exact (hall _ (hsp.symm ▸ List.mem_append_right _
          (List.mem_cons_self _ _))).2.1
  · intro kw hkwm pre W X suf c hlen hWne hW hbnd hXne hXns hsuf hcpre hcsuf
      hcW hck hce hcs
    have hall := sanitizerPasses_ok hcs
    rw [sanitizeCommand_eq_applyPasses, if_neg (by omega)]
    simp only [List.mem_cons, List.not_mem_nil, or_false] at hkwm
    rcases hkwm with rfl | rfl | rfl
    · have hsp : sanitizerPasses =
          [(flagM "--password".toList, "--password=***".toList),
           (flagM "--token".toList, "--token=***".toList),
           (flagM "--api-key".toList, "--api-key=***".toList),
           (flagM "--secret".toList, "--secret=***".toList)] ++
          (matchEnvAt "_KEY".toList, "xxx_KEY=***".toList) ::
          [(matchEnvAt "_TOKEN".toList, "xxx_TOKEN=***".toList),
           (matchEnvAt "_SECRET".toList, "xxx_SECRET=***".toList)] := rfl
      rw [hsp]
      have hkwu : ∀ x ∈ "_KEY".toList, isUpperUnd x = true := by decide
      refine applyPasses_redact_env ?_ ?_ ?_ hWne hW hkwu hcW hck hce hcpre
        hXne hXns hsuf hcsuf hbnd
      · exact fun p hp => hall p (hsp.symm ▸ List.mem_append_left _ hp)
      · exact fun p hp => (hall p (hsp.symm ▸ List.mem_append_right _
          (List.mem_cons_of_mem _ hp))).2.1
      · exact (hall _ (hsp.symm ▸ List.mem_append_right _
          (List.mem_cons_self _ _))).2.1
    · have hsp : sanitizerPasses =
          [(flagM "--password".toList, "--password=***".toList),
           (flagM "--token".toList, "--token=***".toList),
           (flagM "--api-key".toList, "--api-key=***".toList),
           (flagM "--secret".toList, "--secret=***".toList),
           (matchEnvAt "_KEY".toList, "xxx_KEY=***".toList)] ++
          (matchEnvAt "_TOKEN".toList, "xxx_TOKEN=***".toList) ::
          [(matchEnvAt "_SECRET".toList, "xxx_SECRET=***".toList)] := rfl
      rw [hsp]
      have hkwu : ∀ x ∈ "_TOKEN".toList, isUpperUnd x = true := by decide
      refine applyPasses_redact_env ?_ ?_ ?_ hWne hW hkwu hcW hck hce hcpre
        hXne hXns hsuf hcsuf hbnd
      · exact fun p hp => hall p (hsp.symm ▸ List.mem_append_left _ hp)
      · exact fun p hp => (hall p (hsp.symm ▸ List.mem_append_right _
          (List.mem_cons_of_mem _ hp))).2.1
      · exact (hall _ (hsp.symm ▸ List.mem_append_right _
          (List.mem_cons_self _ _))).2.1
    · have hsp : sanitizerPasses =
          [(flagM "--password".toList, "--password=***".toList),
           (flagM "--token".toList, "--token=***".toList),
           (flagM "--api-key".toList, "--api-key=***".toList),
           (flagM "--secret".toList, "--secret=***".toList),
           (matchEnvAt "_KEY".toList, "xxx_KEY=***".toList),
           (matchEnvAt "_TOKEN".toList, "xxx_TOKEN=***".toList)] ++
          (matchEnvAt "_SECRET".toList, "xxx_SECRET=***".toList) :: [] := rfl
      rw [hsp]
      have hkwu : ∀ x ∈ "_SECRET".toList, isUpperUnd x = true := by decide
      refine applyPasses_redact_env ?_ ?_ ?_ hWne hW hkwu hcW hck hce hcpre
        hXne hXns hsuf hcsuf hbnd
      · exact fun p hp => hall p (hsp.symm ▸ List.mem_append_left _ hp)
      · exact fun p hp => absurd hp (List.not_mem_nil p)
      · exact (hall _ (hsp.symm ▸ List.mem_append_right _
          (List.mem_cons_self _ _))).2.1

set_option maxRecDepth 8000 in
theorem sanitizeCommand_redacts_values_witness :
    'h' ∉ sanitizeCommand "run --password=hunter2 x".toList ∧
    'v' ∉ sanitizeCommand "export AWS_KEY=vault1 go".toList := by
  constructor
  · have h := sanitizeCommand_redacts_values.1 "--password" (by decide)
      "run ".toList "hunter2".toList " x".toList 'h'
      (by decide) (by decide) (by decide)
      (Or.inr ⟨' ', "x".toList, by decide, by decide⟩)
      (by decide) (by decide) (by decide) (by decide) (by decide)
    have e : "run ".toList ++ ("--password".toList ++ '=' :: "hunter2".toList)
        ++ " x".toList = "run --password=hunter2 x".toList := by decide
    rw [e] at h
    exact h
  · have h := sanitizeCommand_redacts_values.2 "_KEY" (by decide)
      "export ".toList "AWS".toList "vault1".toList " go".toList 'v'
      (by decide) (by decide) (by decide)
      (by
        intro a ha
        have h2 : ("export ".toList).getLast? = some ' ' := by decide
        rw [h2] at ha
        cases ha
        decide)
      (by decide) (by decide)
      (Or.inr ⟨' ', "go".toList, by decide, by decide⟩)
      (by decide) (by decide) (by decide) (by decide) (by decide) (by decide)
    have e : "export ".toList ++ (("AWS".toList ++ "_KEY".toList) ++ '=' ::
        "vault1".toList) ++ " go".toList = "export AWS_KEY=vault1 go".toList := by
      decide
    rw [e] at h
    exact h
